import Mathlib

/-!
# dumfb: a shallow embedding of the dumb framebuffer driver

Embedding of `module/dumfb.c` (the kernel module) and of `draw_pixel` from
`tests/mmap-test.c`.

Conventions.
* A C `u32` / `unsigned` value is a `Nat`; every operation that can leave the
  range is followed by an explicit reduction modulo `2 ^ 32`.
* A C `unsigned long` is a `Nat` reduced modulo `2 ^ BITS_PER_LONG`.  The word
  size and `PAGE_SHIFT` come from the kernel headers, which are not part of
  the repository, so they are parameters (`Arch`).
* Kernel services (`remap_pfn_range`, `vmalloc_to_pfn`, ...) are parameters
  (`Kernel`); every call to one of them is recorded in a trace.
* Loops take a fuel argument; a result of `none` means the fuel ran out.
-/

namespace Dumfb

/-! ## 32-bit machine arithmetic -/

/-- Truncation of a natural number to a C `u32`. -/
def u32 (x : Nat) : Nat := x % 2 ^ 32

/-- Conversion of a C `int` to `unsigned int`. -/
def int_to_u32 (x : Int) : Nat := (x % 2 ^ 32).toNat

/-- The C expression `a - b` on `unsigned int`. -/
def u32_sub (a b : Nat) : Nat := (u32 a + 2 ^ 32 - u32 b) % 2 ^ 32

/-- The C expression `a << n` on `unsigned int`.  C defines it for `n < 32`
only; for a larger count the model does what the compiled code does on
x86-64 and AArch64, where a 32-bit shift takes its count modulo 32. -/
def u32_shl (a n : Nat) : Nat := u32 (a <<< (n % 32))

/-- The C expression `a >> n` on a non-negative 32-bit operand.  C defines it
for `n < 32` only; for a larger count the model takes the count modulo 32, as
the compiled code does. -/
def u32_shr (a n : Nat) : Nat := a >>> (n % 32)

/-- The C expression `(1 << n) - 1` converted to `u32`, as used for the
transparency mask.  For `n < 31` this is `2 ^ n - 1` without any overflow;
for `n = 31` the signed overflow wraps to `2 ^ 31 - 1`. -/
def ones_mask (n : Nat) : Nat := u32_sub (u32_shl 1 n) 1

/-! ## Constants of `dumfb.c` -/

def DUMFB_DEFAULT_WIDTH : Nat := 1920
def DUMFB_DEFAULT_HEIGHT : Nat := 1080
def DUMFB_BYTES_PER_PIXEL : Nat := 3
def DUMFB_BITS_PER_PIXEL : Nat := DUMFB_BYTES_PER_PIXEL * 8
def DUMFB_PSEUDO_PALETTE_SIZE : Nat := 16

/-- The errno value `EINVAL` of the Linux headers. -/
def EINVAL : Int := 22

/-- The errno value `ENOMEM` of the Linux headers. -/
def ENOMEM : Int := 12

/-- The value `FB_VISUAL_TRUECOLOR` of `linux/fb.h`. -/
def FB_VISUAL_TRUECOLOR : Nat := 2

/-- The module parameters `dumfb_parameters` (both `ushort`). -/
structure dumfb_parameters where
  width : Nat
  height : Nat
deriving DecidableEq

/-- The values a `ushort` module parameter can hold. -/
def is_ushort (x : Nat) : Prop := x < 2 ^ 16

instance (x : Nat) : Decidable (is_ushort x) := by
  unfold is_ushort; infer_instance

/-- The function `dumfb_bytes_per_line`: `DUMFB_BYTES_PER_PIXEL * width`, returned
as `u32`. -/
def dumfb_bytes_per_line (p : dumfb_parameters) : Nat :=
  u32 (DUMFB_BYTES_PER_PIXEL * p.width)

/-- The function `dumfb_screen_size`: `dumfb_bytes_per_line() * height` in `u32`
arithmetic. -/
def dumfb_screen_size (p : dumfb_parameters) : Nat :=
  u32 (dumfb_bytes_per_line p * p.height)

/-! ## Format descriptors (`linux/fb.h`) -/

/-- The `struct fb_bitfield` of `linux/fb.h`. -/
structure fb_bitfield where
  offset : Nat
  length : Nat
  msb_right : Nat
deriving DecidableEq

/-- The fields of `struct fb_var_screeninfo` the driver and the test read. -/
structure fb_var_screeninfo where
  xres : Nat
  yres : Nat
  xres_virtual : Nat
  yres_virtual : Nat
  bits_per_pixel : Nat
  red : fb_bitfield
  green : fb_bitfield
  blue : fb_bitfield
  transp : fb_bitfield
deriving DecidableEq

/-- The fields of `struct fb_fix_screeninfo` the driver and the test read. -/
structure fb_fix_screeninfo where
  smem_start : Nat
  smem_len : Nat
  visual : Nat
  line_length : Nat
deriving DecidableEq

/-- The constant `dumfb_var`: 24 bits per pixel, red 16/8, green 8/8,
blue 0/8, no transparency. -/
def dumfb_var : fb_var_screeninfo :=
  ⟨0, 0, 0, 0, DUMFB_BITS_PER_PIXEL, ⟨16, 8, 0⟩, ⟨8, 8, 0⟩, ⟨0, 8, 0⟩, ⟨0, 0, 0⟩⟩

/-- The parts of `struct fb_info` the driver uses: format, fixed info, the
screen buffer address and size, and the pseudo palette
(`u32 pseudo_palette[16]` of `struct dumfb_par`). -/
structure fb_info where
  var : fb_var_screeninfo
  fix : fb_fix_screeninfo
  screen_buffer : Nat
  screen_size : Nat
  pseudo_palette : Fin 16 → Nat

/-! ## `dumfb_setcolreg` -/

set_option linter.unusedVariables false in
/-- The function `dumfb_setcolreg`: returns the C return value and the
`fb_info` afterwards.  The channel arguments are `unsigned`; each is shifted right by
`16 - length` before it is packed. -/
def dumfb_setcolreg (regno red green blue transp : Nat) (info : fb_info) :
    Int × fb_info :=
  let r := u32_shr red (u32_sub 16 info.var.red.length)
  let g := u32_shr green (u32_sub 16 info.var.green.length)
  let b := u32_shr blue (u32_sub 16 info.var.blue.length)
  if DUMFB_PSEUDO_PALETTE_SIZE ≤ regno then (-EINVAL, info)
  else
    let color := u32_shl r info.var.red.offset ||| u32_shl g info.var.green.offset |||
      u32_shl b info.var.blue.offset
    let color :=
      if 0 < info.var.transp.length then
        color ||| u32_shl (ones_mask info.var.transp.length) info.var.transp.offset
      else color
    (0, { info with pseudo_palette := fun i => if i.val = regno then color else
      info.pseudo_palette i })

/-! ## `draw_pixel` (tests/mmap-test.c) -/

/-- The `rgb_t` of the test program: three `uint8_t` channels. -/
structure rgb_t where
  r : Nat
  g : Nat
  b : Nat
deriving DecidableEq

/-- The `fb_t` of the test program; `pixels` is the mapped buffer, a byte for
every offset from the start of the mapping. -/
structure fb_t where
  fix_info : fb_fix_screeninfo
  var_info : fb_var_screeninfo
  pixels : Nat → Nat

/-- The function `draw_fb_format_supported`. -/
def draw_fb_format_supported (fb : fb_t) : Bool :=
  if fb.fix_info.visual ≠ FB_VISUAL_TRUECOLOR then false
  else if fb.var_info.bits_per_pixel % 8 ≠ 0 ∨ fb.var_info.bits_per_pixel > 32 then false
  else true

/-- The packed word `bits` of `draw_pixel` (the lines up to the transparency
mask): each channel shifted right by `8 - length`, then left by its offset. -/
def draw_pixel_bits (var : fb_var_screeninfo) (color : rgb_t) : Nat :=
  let r := u32_shr color.r (u32_sub 8 var.red.length)
  let g := u32_shr color.g (u32_sub 8 var.green.length)
  let b := u32_shr color.b (u32_sub 8 var.blue.length)
  let bits := u32_shl r var.red.offset ||| u32_shl g var.green.offset |||
    u32_shl b var.blue.offset
  if 0 < var.transp.length then
    bits ||| u32_shl (ones_mask var.transp.length) var.transp.offset
  else bits

/-- Store of one byte at offset `p` of the mapping. -/
def store_byte (mem : Nat → Nat) (p v : Nat) : Nat → Nat :=
  fun a => if a = p then v else mem a

/-- The byte loop of `draw_pixel`:
`for (i = bpp - 8; i >= 0; i -= 8) *(p++) = (bits >> i) & 0xff`. -/
def draw_pixel_loop (bits : Nat) : Nat → Int → Nat → (Nat → Nat) → Option (Nat → Nat)
  | 0, i, _, mem => if 0 ≤ i then none else some mem
  | fuel + 1, i, p, mem =>
    if 0 ≤ i then
      draw_pixel_loop bits fuel (i - 8) (p + 1) (store_byte mem p ((bits >>> i.toNat) &&& 0xff))
    else some mem

/-- Outcome of a call of `draw_pixel`. -/
inductive draw_result where
  | done (pixels : Nat → Nat)
  | assert_failed
  | out_of_fuel

/-- The function `draw_pixel`: the mapped buffer after the call; the `assert`
on the format aborts the program when it fails.  The byte offset is
`y * line_length + x * bits_per_pixel / 8`, both products in `unsigned`
arithmetic as in C (`int` times `__u32`), added to a 64-bit pointer. -/
def draw_pixel (fuel : Nat) (fb : fb_t) (x y : Int) (color : rgb_t) : draw_result :=
  if draw_fb_format_supported fb then
    let bits := draw_pixel_bits fb.var_info color
    let p := u32 (int_to_u32 y * fb.fix_info.line_length) +
      u32 (int_to_u32 x * fb.var_info.bits_per_pixel) / 8
    match draw_pixel_loop bits fuel ((fb.var_info.bits_per_pixel : Int) - 8) p fb.pixels with
    | some mem => draw_result.done mem
    | none => draw_result.out_of_fuel
  else draw_result.assert_failed

/-! ## Address arithmetic of the kernel (`unsigned long`, pages) -/

/-- Word size and page size of the machine the module is built for. -/
structure Arch where
  BITS_PER_LONG : Nat
  PAGE_SHIFT : Nat
deriving DecidableEq

/-- Truncation to `unsigned long`. -/
def Arch.ulong (A : Arch) (x : Nat) : Nat := x % 2 ^ A.BITS_PER_LONG

/-- The C expression `a - b` on `unsigned long`. -/
def Arch.ulong_sub (A : Arch) (a b : Nat) : Nat :=
  (A.ulong a + 2 ^ A.BITS_PER_LONG - A.ulong b) % 2 ^ A.BITS_PER_LONG

/-- The C expression `~a` on `unsigned long`. -/
def Arch.ulong_not (A : Arch) (a : Nat) : Nat := 2 ^ A.BITS_PER_LONG - 1 - A.ulong a

/-- The kernel macro `PAGE_SIZE`, `1UL << PAGE_SHIFT`. -/
def Arch.PAGE_SIZE (A : Arch) : Nat := A.ulong (1 <<< A.PAGE_SHIFT)

/-- The kernel macro `PAGE_MASK`, `~(PAGE_SIZE - 1)`. -/
def Arch.PAGE_MASK (A : Arch) : Nat := A.ulong_not (A.PAGE_SIZE - 1)

/-- The kernel macro `PAGE_ALIGN(addr)`,
`(addr + PAGE_SIZE - 1) & ~(PAGE_SIZE - 1)` on `unsigned long`. -/
def Arch.PAGE_ALIGN (A : Arch) (addr : Nat) : Nat :=
  A.ulong (addr + (A.PAGE_SIZE - 1)) &&& A.PAGE_MASK

/-- The fields of `struct vm_area_struct` the driver reads. -/
structure vm_area_struct where
  vm_start : Nat
  vm_end : Nat
  vm_pgoff : Nat
  vm_page_prot : Nat
deriving DecidableEq

/-- The kernel services `dumfb_mmap` calls. -/
structure Kernel where
  is_vmalloc_addr : Nat → Bool
  vmalloc_to_pfn : Nat → Nat
  virt_to_phys : Nat → Nat
  remap_pfn_range : vm_area_struct → Nat → Nat → Nat → Nat → Int

/-- A call of a kernel service made by `dumfb_mmap`, with its arguments; a
`remap_pfn_range` call also records what it returned. -/
inductive Event where
  | vmalloc_to_pfn (addr : Nat)
  | remap_pfn_range (addr pfn size prot : Nat) (ret : Int)
deriving DecidableEq

/-- Result of a mapping request: the C return value (`none` when the fuel ran
out) and the kernel calls made, in order. -/
structure mmap_result where
  ret : Option Int
  trace : List Event
deriving DecidableEq

/-! ## `dumfb_mmap` -/

/-- The `while (size > 0)` loop of `dumfb_mmap_vmalloc`. -/
def dumfb_mmap_vmalloc_loop (A : Arch) (K : Kernel) (vma : vm_area_struct) :
    Nat → Nat → Nat → Nat → mmap_result
  | 0, _, _, size => if 0 < size then ⟨none, []⟩ else ⟨some 0, []⟩
  | fuel + 1, start, pos, size =>
    if 0 < size then
      let pfn := K.vmalloc_to_pfn pos
      let ret := K.remap_pfn_range vma start pfn A.PAGE_SIZE vma.vm_page_prot
      let events := [Event.vmalloc_to_pfn pos,
        Event.remap_pfn_range start pfn A.PAGE_SIZE vma.vm_page_prot ret]
      if ret < 0 then ⟨some ret, events⟩
      else
        let rest := dumfb_mmap_vmalloc_loop A K vma fuel (A.ulong (start + A.PAGE_SIZE))
          (A.ulong (pos + A.PAGE_SIZE))
          (if size > A.PAGE_SIZE then size - A.PAGE_SIZE else 0)
        ⟨rest.ret, events ++ rest.trace⟩
    else ⟨some 0, []⟩

/-- The function `dumfb_mmap_vmalloc`; `fuel` bounds the iterations of its loop. -/
def dumfb_mmap_vmalloc (A : Arch) (K : Kernel) (fuel : Nat) (addr addr_len : Nat)
    (vma : vm_area_struct) : mmap_result :=
  let start := vma.vm_start
  let size := A.ulong_sub vma.vm_end vma.vm_start
  let offset := A.ulong (vma.vm_pgoff <<< A.PAGE_SHIFT)
  let pos := A.ulong (addr + offset)
  if vma.vm_pgoff > A.ulong_not 0 >>> A.PAGE_SHIFT then ⟨some (-EINVAL), []⟩
  else if offset > A.PAGE_ALIGN addr_len then ⟨some (-EINVAL), []⟩
  else if size > A.ulong_sub (A.PAGE_ALIGN addr_len) offset then ⟨some (-EINVAL), []⟩
  else dumfb_mmap_vmalloc_loop A K vma fuel start pos size

/-- The function `dumfb_mmap_kmalloc`. -/
def dumfb_mmap_kmalloc (A : Arch) (K : Kernel) (addr addr_len : Nat)
    (vma : vm_area_struct) : mmap_result :=
  let pfn := A.ulong (K.virt_to_phys addr >>> A.PAGE_SHIFT)
  let pages := A.ulong (addr_len + A.ulong_not A.PAGE_MASK) >>> A.PAGE_SHIFT
  let size := A.ulong_sub vma.vm_end vma.vm_start
  if vma.vm_pgoff > pages then ⟨some (-EINVAL), []⟩
  else
    let pfn := A.ulong (pfn + vma.vm_pgoff)
    let pages := A.ulong_sub pages vma.vm_pgoff
    if size >>> A.PAGE_SHIFT > pages then ⟨some (-EINVAL), []⟩
    else
      let ret := K.remap_pfn_range vma vma.vm_start pfn size vma.vm_page_prot
      ⟨some ret, [Event.remap_pfn_range vma.vm_start pfn size vma.vm_page_prot ret]⟩

/-- The function `dumfb_mmap`: dispatch on the layout of the screen buffer. -/
def dumfb_mmap (A : Arch) (K : Kernel) (fuel : Nat) (info : fb_info)
    (vma : vm_area_struct) : mmap_result :=
  if K.is_vmalloc_addr info.screen_buffer then
    dumfb_mmap_vmalloc A K fuel info.screen_buffer info.screen_size vma
  else dumfb_mmap_kmalloc A K info.screen_buffer info.screen_size vma

/-! ## `dumfb_init` -/

/-- Outcomes of the four fallible calls of `dumfb_init`: the two allocations
return a pointer (`none` for `NULL`), the two registrations an `int`. -/
structure InitEnv where
  framebuffer_alloc : Option Nat
  kvzalloc : Option Nat
  register_framebuffer : Int
  device_create_file : Int
deriving DecidableEq

/-- The kernel calls of `dumfb_init` that acquire or release something. -/
inductive InitCall where
  | framebuffer_alloc
  | kvzalloc
  | register_framebuffer (info : Nat)
  | device_create_file (info : Nat)
  | unregister_framebuffer (info : Nat)
  | kvfree (buffer : Nat)
  | framebuffer_release (info : Nat)
  | device_remove_file (info : Nat)
deriving DecidableEq

/-- Result of `dumfb_init`: the return value, the global `dumfb_info`
afterwards (`none` for `NULL`, its initial value) and the calls made. -/
structure init_result where
  ret : Int
  dumfb_info : Option Nat
  calls : List InitCall
deriving DecidableEq

/-- The function `dumfb_init`, with the `goto` chain of error labels unfolded. -/
def dumfb_init (E : InitEnv) : init_result :=
  match E.framebuffer_alloc with
  | none => ⟨-ENOMEM, none, [InitCall.framebuffer_alloc]⟩
  | some info =>
    match E.kvzalloc with
    | none =>
      ⟨-ENOMEM, none, [InitCall.framebuffer_alloc, InitCall.kvzalloc,
        InitCall.framebuffer_release info]⟩
    | some screen_buffer =>
      let ret := E.register_framebuffer
      if ret < 0 then
        ⟨ret, none, [InitCall.framebuffer_alloc, InitCall.kvzalloc,
          InitCall.register_framebuffer info,
          InitCall.kvfree screen_buffer, InitCall.framebuffer_release info]⟩
      else
        let ret := E.device_create_file
        if ret < 0 then
          ⟨ret, none, [InitCall.framebuffer_alloc, InitCall.kvzalloc,
            InitCall.register_framebuffer info, InitCall.device_create_file info,
            InitCall.unregister_framebuffer info,
            InitCall.kvfree screen_buffer, InitCall.framebuffer_release info]⟩
        else
          ⟨0, some info, [InitCall.framebuffer_alloc, InitCall.kvzalloc,
            InitCall.register_framebuffer info, InitCall.device_create_file info]⟩

/-- The function `dumfb_exit`: the calls made for the device `info` with screen buffer
`screen_buffer`. -/
def dumfb_exit (info screen_buffer : Nat) : List InitCall :=
  [InitCall.device_remove_file info, InitCall.unregister_framebuffer info,
    InitCall.kvfree screen_buffer, InitCall.framebuffer_release info]

/-! ### Vocabulary for the rollback property of `dumfb_init` -/

/-- The four fallible steps of `dumfb_init`. -/
inductive InitStep where
  | framebuffer_alloc
  | kvzalloc
  | register_framebuffer
  | device_create_file
deriving DecidableEq

/-- The fallible steps in program order. -/
def init_steps : List InitStep :=
  [InitStep.framebuffer_alloc, InitStep.kvzalloc, InitStep.register_framebuffer,
    InitStep.device_create_file]

/-- Whether a step succeeds in the environment `E`: an allocation succeeds
when it returns a pointer, a registration when it returns no negative value. -/
def InitEnv.succeeds (E : InitEnv) : InitStep → Bool
  | InitStep.framebuffer_alloc => E.framebuffer_alloc.isSome
  | InitStep.kvzalloc => E.kvzalloc.isSome
  | InitStep.register_framebuffer => decide (0 ≤ E.register_framebuffer)
  | InitStep.device_create_file => decide (0 ≤ E.device_create_file)

/-- The kernel call that performs a step. -/
def attempt_call (info : Nat) : InitStep → InitCall
  | InitStep.framebuffer_alloc => InitCall.framebuffer_alloc
  | InitStep.kvzalloc => InitCall.kvzalloc
  | InitStep.register_framebuffer => InitCall.register_framebuffer info
  | InitStep.device_create_file => InitCall.device_create_file info

/-- The kernel call that undoes a step. -/
def undo_call (info screen_buffer : Nat) : InitStep → InitCall
  | InitStep.framebuffer_alloc => InitCall.framebuffer_release info
  | InitStep.kvzalloc => InitCall.kvfree screen_buffer
  | InitStep.register_framebuffer => InitCall.unregister_framebuffer info
  | InitStep.device_create_file => InitCall.device_remove_file info

/-- Whether a call is `register_framebuffer`. -/
def InitCall.is_register : InitCall → Bool
  | InitCall.register_framebuffer _ => true
  | _ => false

/-- Whether a call is `unregister_framebuffer`. -/
def InitCall.is_unregister : InitCall → Bool
  | InitCall.unregister_framebuffer _ => true
  | _ => false

/-! ## Vocabulary of the properties and concrete inputs -/

/-- A device `fb_info` in the fixed format with an all-zero palette. -/
def info_zero : fb_info := ⟨dumfb_var, ⟨0, 0, FB_VISUAL_TRUECOLOR, 0⟩, 0, 0, fun _ => 0⟩

/-- A 64-bit machine with 4 KiB pages. -/
def arch64 : Arch := ⟨64, 12⟩

/-- A kernel in which the screen buffer is scattered (`vmalloc`), frames are
numbered by address and every `remap_pfn_range` succeeds. -/
def kernel_scattered : Kernel := ⟨fun _ => true, fun a => a >>> 12, fun a => a, fun _ _ _ _ _ => 0⟩

/-- The `fb_info` of a 4 x 2 device (stride 12, 24 bytes) whose buffer is at
address `0x100000`. -/
def info_4x2 : fb_info :=
  ⟨dumfb_var, ⟨0x100000, 24, FB_VISUAL_TRUECOLOR, 12⟩, 0x100000, 24, fun _ => 0⟩

/-- What `remap_pfn_range` returns in step `k` of the page walk that starts
at destination `start` and buffer address `pos`. -/
def step_ret (A : Arch) (K : Kernel) (vma : vm_area_struct) (start pos k : Nat) : Int :=
  K.remap_pfn_range vma (start + k * A.PAGE_SIZE) (K.vmalloc_to_pfn (pos + k * A.PAGE_SIZE))
    A.PAGE_SIZE vma.vm_page_prot

/-- The kernel calls of step `k` of the page walk: the frame of the buffer
page at `pos + k * PAGE_SIZE` is resolved and one page is mapped to it at
`start + k * PAGE_SIZE` with the protection of the request. -/
def step_events (A : Arch) (K : Kernel) (vma : vm_area_struct) (start pos k : Nat) :
    List Event :=
  [Event.vmalloc_to_pfn (pos + k * A.PAGE_SIZE),
    Event.remap_pfn_range (start + k * A.PAGE_SIZE) (K.vmalloc_to_pfn (pos + k * A.PAGE_SIZE))
      A.PAGE_SIZE vma.vm_page_prot (step_ret A K vma start pos k)]

/-- The kernel calls of steps `0 .. n - 1` of the page walk, in order. -/
def walk_events (A : Arch) (K : Kernel) (vma : vm_area_struct) (start pos : Nat) :
    Nat → List Event
  | 0 => []
  | n + 1 => walk_events A K vma start pos n ++ step_events A K vma start pos n

/-- The three checks of `dumfb_mmap_vmalloc` all pass. -/
def vmalloc_accepts (A : Arch) (addr_len : Nat) (vma : vm_area_struct) : Prop :=
  ¬ vma.vm_pgoff > A.ulong_not 0 >>> A.PAGE_SHIFT ∧
  ¬ A.ulong (vma.vm_pgoff <<< A.PAGE_SHIFT) > A.PAGE_ALIGN addr_len ∧
  ¬ A.ulong_sub vma.vm_end vma.vm_start >
    A.ulong_sub (A.PAGE_ALIGN addr_len) (A.ulong (vma.vm_pgoff <<< A.PAGE_SHIFT))

instance (A : Arch) (addr_len : Nat) (vma : vm_area_struct) :
    Decidable (vmalloc_accepts A addr_len vma) := by
  unfold vmalloc_accepts; infer_instance

/-- A kernel in which the buffer is scattered and `remap_pfn_range` fails
with `-ENOMEM` (-12) for the destination page at `0x8000`. -/
def kernel_second_fails : Kernel :=
  ⟨fun _ => true, fun a => a >>> 12, fun a => a,
    fun _ start _ _ _ => if start = 0x8000 then -12 else 0⟩

/-- Two bit fields share no bit position (an absent field, of length 0,
shares none). -/
def bitfield_disjoint (a b : fb_bitfield) : Prop :=
  a.length = 0 ∨ b.length = 0 ∨ a.offset + a.length ≤ b.offset ∨
    b.offset + b.length ≤ a.offset

instance (a b : fb_bitfield) : Decidable (bitfield_disjoint a b) := by
  unfold bitfield_disjoint; infer_instance

/-- A colour channel `draw_pixel` can fill from an 8-bit value: between 1 and
8 bits wide and inside the 32-bit pixel word. -/
def channel_ok (a : fb_bitfield) : Prop :=
  1 ≤ a.length ∧ a.length ≤ 8 ∧ a.offset + a.length ≤ 32

instance (a : fb_bitfield) : Decidable (channel_ok a) := by
  unfold channel_ok; infer_instance

/-- The 16-bit format ARGB 1/5/5/5: one transparency bit at bit 15. -/
def var_argb1555 : fb_var_screeninfo :=
  ⟨0, 0, 0, 0, 16, ⟨10, 5, 0⟩, ⟨5, 5, 0⟩, ⟨0, 5, 0⟩, ⟨15, 1, 0⟩⟩

/-- The mapped buffer of a 4 x 2 device (stride 12, 24 bytes), all zero. -/
def fb_4x2 : fb_t :=
  ⟨⟨0x100000, 24, FB_VISUAL_TRUECOLOR, 12⟩,
    ⟨4, 2, 4, 2, 24, ⟨16, 8, 0⟩, ⟨8, 8, 0⟩, ⟨0, 8, 0⟩, ⟨0, 0, 0⟩⟩, fun _ => 0⟩

/-- The transparency field is absent (length 0) or lies inside the 32-bit
pixel word. -/
def transp_ok (t : fb_bitfield) : Prop :=
  t.length = 0 ∨ t.offset + t.length ≤ 32

instance (t : fb_bitfield) : Decidable (transp_ok t) := by
  unfold transp_ok; infer_instance

/-- The 8/8/8 colour layout of `dumfb_var` with a transparency field of 8 bits
at offset 32, beyond the 32-bit pixel word. -/
def var_transp_outside : fb_var_screeninfo :=
  ⟨0, 0, 0, 0, 24, ⟨16, 8, 0⟩, ⟨8, 8, 0⟩, ⟨0, 8, 0⟩, ⟨32, 8, 0⟩⟩

/-- A byte of the buffer `draw_pixel` leaves behind (`none` when it did not
return). -/
def draw_result.byte : draw_result → Nat → Option Nat
  | draw_result.done pixels, a => some (pixels a)
  | _, _ => none

/-- A framebuffer in the fixed format, one pixel wide and three rows high,
with a stride of `2 ^ 31` bytes; its buffer is all zero. -/
def fb_wide : fb_t :=
  ⟨⟨0x100000, 0x80000000, FB_VISUAL_TRUECOLOR, 0x80000000⟩,
    ⟨1, 3, 1, 3, 24, ⟨16, 8, 0⟩, ⟨8, 8, 0⟩, ⟨0, 8, 0⟩, ⟨0, 0, 0⟩⟩, fun _ => 0⟩

/-- The framebuffer of the dumfb device loaded with width = height = 65535:
stride 196605 and the wrapped size 4294574083; its buffer is all zero. -/
def fb_65535 : fb_t :=
  ⟨⟨0x100000, 4294574083, FB_VISUAL_TRUECOLOR, 196605⟩,
    ⟨65535, 65535, 65535, 65535, 24, ⟨16, 8, 0⟩, ⟨8, 8, 0⟩, ⟨0, 8, 0⟩, ⟨0, 0, 0⟩⟩,
    fun _ => 0⟩

/-! ## Checks on concrete inputs -/

example : dumfb_bytes_per_line ⟨4, 2⟩ = 12 := by decide
example : dumfb_screen_size ⟨4, 2⟩ = 24 := by decide
example : dumfb_screen_size ⟨1920, 1080⟩ = 6220800 := by decide
example : dumfb_screen_size ⟨65535, 65535⟩ = 4294574083 := by decide

/-! ## Theorems: `dumfb_setcolreg` -/

/-- C3: for every index `regno >= 16`, whatever the channel inputs and the
format descriptor, `dumfb_setcolreg` returns `-EINVAL` (-22) and leaves the
`fb_info`, in particular each of the 16 palette entries, unchanged. -/
theorem dumfb_setcolreg_invalid_index (regno red green blue transp : Nat)
    (info : fb_info) (h : 16 ≤ regno) :
    (dumfb_setcolreg regno red green blue transp info).1 = -22 ∧
    (dumfb_setcolreg regno red green blue transp info).2 = info ∧
    ∀ i : Fin 16,
      (dumfb_setcolreg regno red green blue transp info).2.pseudo_palette i =
        info.pseudo_palette i := by
  have h16 : DUMFB_PSEUDO_PALETTE_SIZE ≤ regno := h
  simp [dumfb_setcolreg, h16, EINVAL]

/-- Witness of C3 at index 16 with a white colour. -/
theorem dumfb_setcolreg_invalid_index_witness :
    16 ≤ 16 ∧
    (dumfb_setcolreg 16 65535 65535 65535 0 info_zero).1 = -22 ∧
    (dumfb_setcolreg 16 65535 65535 65535 0 info_zero).2 = info_zero ∧
    ∀ i : Fin 16,
      (dumfb_setcolreg 16 65535 65535 65535 0 info_zero).2.pseudo_palette i =
        info_zero.pseudo_palette i :=
  ⟨le_refl 16, dumfb_setcolreg_invalid_index 16 65535 65535 65535 0 info_zero (le_refl 16)⟩

/-- C6, as stated, fails: with the fixed format and the 8-bit colour
(255, 0, 0), `dumfb_setcolreg` succeeds but stores the word 0 in entry 0,
not `(255 << 16) | (0 << 8) | 0 = 0xFF0000`, the word `draw_pixel` packs. -/
theorem dumfb_setcolreg_8bit_counterexample :
    (dumfb_setcolreg 0 255 0 0 0 info_zero).1 = 0 ∧
    (dumfb_setcolreg 0 255 0 0 0 info_zero).2.pseudo_palette 0 = 0 ∧
    draw_pixel_bits dumfb_var ⟨255, 0, 0⟩ = 0xFF0000 ∧
    (255 <<< 16 ||| 0 <<< 8 ||| 0) = 0xFF0000 ∧
    (dumfb_setcolreg 0 255 0 0 0 info_zero).2.pseudo_palette 0 ≠
      draw_pixel_bits dumfb_var ⟨255, 0, 0⟩ := by
  decide

/-- C6, amended: for every index `regno < 16` and all 16-bit channel values
`r`, `g`, `b`, with the fixed format (red 16/8, green 8/8, blue 0/8, no
transparency) `dumfb_setcolreg` returns 0 and afterwards `palette[regno]` is
each channel shifted right by `16 - length = 8` and left to its offset,
OR-combined: `((r >> 8) << 16) | ((g >> 8) << 8) | (b >> 8)`, the word
`draw_pixel` packs for the 8-bit colour `(r >> 8, g >> 8, b >> 8)`; every
other palette entry is unchanged. -/
theorem dumfb_setcolreg_fixed_format (regno r g b transp : Nat) (info : fb_info)
    (hregno : regno < 16) (hr : r < 2 ^ 16) (hg : g < 2 ^ 16) (hb : b < 2 ^ 16)
    (hred : info.var.red = dumfb_var.red) (hgreen : info.var.green = dumfb_var.green)
    (hblue : info.var.blue = dumfb_var.blue) (htransp : info.var.transp = dumfb_var.transp) :
    (dumfb_setcolreg regno r g b transp info).1 = 0 ∧
    (dumfb_setcolreg regno r g b transp info).2.pseudo_palette ⟨regno, hregno⟩ =
      ((r >>> 8) <<< 16 ||| (g >>> 8) <<< 8 ||| b >>> 8) ∧
    (dumfb_setcolreg regno r g b transp info).2.pseudo_palette ⟨regno, hregno⟩ =
      draw_pixel_bits info.var ⟨r >>> 8, g >>> 8, b >>> 8⟩ ∧
    ∀ i : Fin 16, i.val ≠ regno →
      (dumfb_setcolreg regno r g b transp info).2.pseudo_palette i =
        info.pseudo_palette i := by
  have h16 : ¬ DUMFB_PSEUDO_PALETTE_SIZE ≤ regno := by
    simp only [DUMFB_PSEUDO_PALETTE_SIZE]; omega
  have hr8 : (r >>> 8) <<< 16 % 4294967296 = (r >>> 8) <<< 16 := by
    apply Nat.mod_eq_of_lt
    rw [Nat.shiftRight_eq_div_pow, Nat.shiftLeft_eq]; norm_num at hr ⊢; omega
  have hg8 : (g >>> 8) <<< 8 % 4294967296 = (g >>> 8) <<< 8 := by
    apply Nat.mod_eq_of_lt
    rw [Nat.shiftRight_eq_div_pow, Nat.shiftLeft_eq]; norm_num at hg ⊢; omega
  have hb8 : b >>> 8 % 4294967296 = b >>> 8 := by
    apply Nat.mod_eq_of_lt
    rw [Nat.shiftRight_eq_div_pow]; norm_num at hb ⊢; omega
  simp [dumfb_setcolreg, draw_pixel_bits, h16, hred, hgreen, hblue, htransp, dumfb_var,
    u32_shr, u32_shl, u32_sub, u32, hr8, hg8, hb8]
  intro i hi hi2
  exact absurd hi2 hi

/-- Witness of the amended C6 at entry 3 with the 16-bit colour
(0xFFFF, 0x8000, 0x0100). -/
theorem dumfb_setcolreg_fixed_format_witness :
    (dumfb_setcolreg 3 0xFFFF 0x8000 0x0100 0 info_zero).1 = 0 ∧
    (dumfb_setcolreg 3 0xFFFF 0x8000 0x0100 0 info_zero).2.pseudo_palette
      ⟨3, by decide⟩ = ((0xFFFF >>> 8) <<< 16 ||| (0x8000 >>> 8) <<< 8 ||| 0x0100 >>> 8) ∧
    (dumfb_setcolreg 3 0xFFFF 0x8000 0x0100 0 info_zero).2.pseudo_palette
      ⟨3, by decide⟩ =
      draw_pixel_bits info_zero.var ⟨0xFFFF >>> 8, 0x8000 >>> 8, 0x0100 >>> 8⟩ ∧
    ∀ i : Fin 16, i.val ≠ 3 →
      (dumfb_setcolreg 3 0xFFFF 0x8000 0x0100 0 info_zero).2.pseudo_palette i =
        info_zero.pseudo_palette i :=
  dumfb_setcolreg_fixed_format 3 0xFFFF 0x8000 0x0100 0 info_zero (by decide) (by decide)
    (by decide) (by decide) rfl rfl rfl rfl

/-! ## Theorems: buffer geometry -/

/-- C7 fails at width = height = 65535, values the `ushort` parameters can
hold: the stride is still `65535 * 3`, but `dumfb_screen_size` wraps around
in `u32` arithmetic to 4294574083, not `65535 * 3 * 65535 = 12884508675`. -/
theorem dumfb_screen_size_overflow :
    is_ushort 65535 ∧
    dumfb_bytes_per_line ⟨65535, 65535⟩ = 65535 * 3 ∧
    dumfb_screen_size ⟨65535, 65535⟩ = 4294574083 ∧
    dumfb_screen_size ⟨65535, 65535⟩ ≠ 65535 * 3 * 65535 := by
  decide

/-- Below the `u32` range the geometry is exact: the stride is `3 * width` for
every `ushort` width, and the size is `width * 3 * height` whenever that
product is below `2 ^ 32`. -/
theorem dumfb_screen_size_exact (p : dumfb_parameters) (hw : is_ushort p.width) :
    dumfb_bytes_per_line p = p.width * 3 ∧
    (p.width * 3 * p.height < 2 ^ 32 → dumfb_screen_size p = p.width * 3 * p.height) := by
  unfold is_ushort at hw
  have hline : dumfb_bytes_per_line p = p.width * 3 := by
    unfold dumfb_bytes_per_line u32 DUMFB_BYTES_PER_PIXEL
    rw [Nat.mod_eq_of_lt (by norm_num at hw ⊢; omega)]
    omega
  refine ⟨hline, fun h => ?_⟩
  unfold dumfb_screen_size u32
  rw [hline]
  exact Nat.mod_eq_of_lt h

/-! ## Theorems: `dumfb_init` -/

example : dumfb_init ⟨some 7, none, 0, 0⟩ =
    ⟨-12, none, [InitCall.framebuffer_alloc, InitCall.kvzalloc,
      InitCall.framebuffer_release 7]⟩ := by decide
example : dumfb_init ⟨some 7, some 9, 0, -5⟩ =
    ⟨-5, none, [InitCall.framebuffer_alloc, InitCall.kvzalloc,
      InitCall.register_framebuffer 7, InitCall.device_create_file 7,
      InitCall.unregister_framebuffer 7, InitCall.kvfree 9,
      InitCall.framebuffer_release 7]⟩ := by decide

/-- C8: whatever the outcomes of the four fallible steps, if one of them fails
then `dumfb_init` returns a negative value and leaves the global `dumfb_info`
unset; the calls it made are the steps `done` that succeeded, then the step
`failed` that failed, then the undo call of every step of `done`, once each,
in reverse order (so `kvfree` comes before `framebuffer_release`);
`unregister_framebuffer` is called exactly when `register_framebuffer` is
among the steps that succeeded; and when the screen buffer allocation fails
there is neither a register nor an unregister call. -/
theorem dumfb_init_rollback (E : InitEnv) (hfail : ∃ s, E.succeeds s = false) :
    ∃ (done : List InitStep) (failed : InitStep),
      done ++ [failed] <+: init_steps ∧
      (∀ s ∈ done, E.succeeds s = true) ∧
      E.succeeds failed = false ∧
      (dumfb_init E).ret < 0 ∧
      (dumfb_init E).dumfb_info = none ∧
      (dumfb_init E).calls =
        (done ++ [failed]).map (attempt_call (E.framebuffer_alloc.getD 0)) ++
          done.reverse.map (undo_call (E.framebuffer_alloc.getD 0) (E.kvzalloc.getD 0)) ∧
      ((∃ c ∈ (dumfb_init E).calls, c.is_unregister = true) ↔
        InitStep.register_framebuffer ∈ done) ∧
      (E.framebuffer_alloc ≠ none → E.kvzalloc = none →
        ∀ c ∈ (dumfb_init E).calls, c.is_register = false ∧ c.is_unregister = false) := by
  obtain ⟨fa, kv, reg, dcf⟩ := E
  cases fa with
  | none =>
    refine ⟨[], InitStep.framebuffer_alloc, ?_⟩
    simp [dumfb_init, init_steps, InitEnv.succeeds, attempt_call, ENOMEM,
      InitCall.is_unregister]
  | some info =>
    cases kv with
    | none =>
      refine ⟨[InitStep.framebuffer_alloc], InitStep.kvzalloc, ?_⟩
      simp [dumfb_init, init_steps, InitEnv.succeeds, attempt_call, undo_call, ENOMEM,
        InitCall.is_unregister, InitCall.is_register]
    | some buf =>
      by_cases hreg : reg < 0
      · refine ⟨[InitStep.framebuffer_alloc, InitStep.kvzalloc],
          InitStep.register_framebuffer, ?_⟩
        simp [dumfb_init, init_steps, InitEnv.succeeds, attempt_call, undo_call, hreg,
          InitCall.is_unregister]
      · by_cases hdcf : dcf < 0
        · refine ⟨[InitStep.framebuffer_alloc, InitStep.kvzalloc,
            InitStep.register_framebuffer], InitStep.device_create_file, ?_⟩
          have hreg0 : 0 ≤ reg := not_lt.mp hreg
          simp [dumfb_init, init_steps, InitEnv.succeeds, attempt_call, undo_call, hreg,
            hdcf, hreg0, InitCall.is_unregister]
        · exfalso
          obtain ⟨s, hs⟩ := hfail
          cases s <;> simp [InitEnv.succeeds] at hs <;> omega

/-- Witness of C8: the screen buffer allocation fails (OutOfMemory). -/
theorem dumfb_init_rollback_witness :
    (∃ s, (InitEnv.mk (some 7) none 0 0).succeeds s = false) ∧
    ∃ (done : List InitStep) (failed : InitStep),
      done ++ [failed] <+: init_steps ∧
      (∀ s ∈ done, (InitEnv.mk (some 7) none 0 0).succeeds s = true) ∧
      (InitEnv.mk (some 7) none 0 0).succeeds failed = false ∧
      (dumfb_init (InitEnv.mk (some 7) none 0 0)).ret < 0 ∧
      (dumfb_init (InitEnv.mk (some 7) none 0 0)).dumfb_info = none ∧
      (dumfb_init (InitEnv.mk (some 7) none 0 0)).calls =
        (done ++ [failed]).map
            (attempt_call ((InitEnv.mk (some 7) none 0 0).framebuffer_alloc.getD 0)) ++
          done.reverse.map
            (undo_call ((InitEnv.mk (some 7) none 0 0).framebuffer_alloc.getD 0)
              ((InitEnv.mk (some 7) none 0 0).kvzalloc.getD 0)) ∧
      ((∃ c ∈ (dumfb_init (InitEnv.mk (some 7) none 0 0)).calls, c.is_unregister = true) ↔
        InitStep.register_framebuffer ∈ done) ∧
      ((InitEnv.mk (some 7) none 0 0).framebuffer_alloc ≠ none →
        (InitEnv.mk (some 7) none 0 0).kvzalloc = none →
        ∀ c ∈ (dumfb_init (InitEnv.mk (some 7) none 0 0)).calls,
          c.is_register = false ∧ c.is_unregister = false) :=
  ⟨⟨InitStep.kvzalloc, by decide⟩,
    dumfb_init_rollback (InitEnv.mk (some 7) none 0 0) ⟨InitStep.kvzalloc, by decide⟩⟩

/-! ## Lemmas: page arithmetic -/

section PageArithmetic

variable (A : Arch)

theorem ulong_of_lt {x : Nat} (h : x < 2 ^ A.BITS_PER_LONG) : A.ulong x = x :=
  Nat.mod_eq_of_lt h

theorem ulong_lt (x : Nat) : A.ulong x < 2 ^ A.BITS_PER_LONG :=
  Nat.mod_lt _ (Nat.two_pow_pos _)

theorem ulong_le (x : Nat) : A.ulong x ≤ x := Nat.mod_le _ _

theorem page_pow_lt (hps : A.PAGE_SHIFT < A.BITS_PER_LONG) :
    2 ^ A.PAGE_SHIFT < 2 ^ A.BITS_PER_LONG :=
  Nat.pow_lt_pow_right (by decide) hps

theorem PAGE_SIZE_eq (hps : A.PAGE_SHIFT < A.BITS_PER_LONG) :
    A.PAGE_SIZE = 2 ^ A.PAGE_SHIFT := by
  unfold Arch.PAGE_SIZE
  rw [Nat.shiftLeft_eq, Nat.one_mul]
  exact ulong_of_lt A (page_pow_lt A hps)

theorem PAGE_SIZE_pos (hps : A.PAGE_SHIFT < A.BITS_PER_LONG) : 0 < A.PAGE_SIZE := by
  rw [PAGE_SIZE_eq A hps]; exact Nat.two_pow_pos _

theorem ulong_sub_eq {a b : Nat} (hba : b ≤ a) (ha : a < 2 ^ A.BITS_PER_LONG) :
    A.ulong_sub a b = a - b := by
  unfold Arch.ulong_sub
  rw [ulong_of_lt A ha, ulong_of_lt A (lt_of_le_of_lt hba ha)]
  have h1 : a + 2 ^ A.BITS_PER_LONG - b = (a - b) + 2 ^ A.BITS_PER_LONG := by omega
  rw [h1, Nat.add_mod_right]
  exact Nat.mod_eq_of_lt (by omega)

theorem PAGE_MASK_eq (hps : A.PAGE_SHIFT < A.BITS_PER_LONG) :
    A.PAGE_MASK = 2 ^ A.BITS_PER_LONG - 2 ^ A.PAGE_SHIFT := by
  have h := page_pow_lt A hps
  have hpos := Nat.two_pow_pos A.PAGE_SHIFT
  unfold Arch.PAGE_MASK Arch.ulong_not
  rw [PAGE_SIZE_eq A hps, ulong_of_lt A (by omega)]
  omega

theorem not_PAGE_MASK_eq (hps : A.PAGE_SHIFT < A.BITS_PER_LONG) :
    A.ulong_not A.PAGE_MASK = 2 ^ A.PAGE_SHIFT - 1 := by
  have h := page_pow_lt A hps
  have hpos := Nat.two_pow_pos A.PAGE_SHIFT
  rw [PAGE_MASK_eq A hps]
  unfold Arch.ulong_not
  rw [ulong_of_lt A (by omega)]
  omega

/-- Masking a word with `PAGE_MASK` rounds it down to a page boundary. -/
theorem and_page_mask {x : Nat} (hps : A.PAGE_SHIFT < A.BITS_PER_LONG)
    (hx : x < 2 ^ A.BITS_PER_LONG) :
    x &&& (2 ^ A.BITS_PER_LONG - 2 ^ A.PAGE_SHIFT) = x / 2 ^ A.PAGE_SHIFT * 2 ^ A.PAGE_SHIFT := by
  have hsplit : 2 ^ A.BITS_PER_LONG - 2 ^ A.PAGE_SHIFT =
      2 ^ A.PAGE_SHIFT * (2 ^ (A.BITS_PER_LONG - A.PAGE_SHIFT) - 1) := by
    rw [Nat.mul_sub, ← Nat.pow_add, Nat.mul_one]
    congr 2
    omega
  rw [hsplit, Nat.mul_comm (x / 2 ^ A.PAGE_SHIFT)]
  apply Nat.eq_of_testBit_eq
  intro i
  rw [Nat.testBit_and, Nat.testBit_mul_pow_two, Nat.testBit_mul_pow_two,
    Nat.testBit_two_pow_sub_one, ← Nat.shiftRight_eq_div_pow, Nat.testBit_shiftRight]
  by_cases hi : A.PAGE_SHIFT ≤ i
  · have hadd : A.PAGE_SHIFT + (i - A.PAGE_SHIFT) = i := by omega
    rw [hadd]
    by_cases hiw : i < A.BITS_PER_LONG
    · have : i - A.PAGE_SHIFT < A.BITS_PER_LONG - A.PAGE_SHIFT := by omega
      simp [hi, this]
    · have hxi : x < 2 ^ i :=
        lt_of_lt_of_le hx (Nat.pow_le_pow_right (by decide) (not_lt.mp hiw))
      simp [Nat.testBit_lt_two_pow hxi]
  · simp [hi]

theorem PAGE_ALIGN_eq (hps : A.PAGE_SHIFT < A.BITS_PER_LONG) (len : Nat) :
    A.PAGE_ALIGN len =
      A.ulong (len + (2 ^ A.PAGE_SHIFT - 1)) / 2 ^ A.PAGE_SHIFT * 2 ^ A.PAGE_SHIFT := by
  unfold Arch.PAGE_ALIGN
  rw [PAGE_MASK_eq A hps, PAGE_SIZE_eq A hps]
  exact and_page_mask A hps (ulong_lt A _)

theorem PAGE_ALIGN_lt (hps : A.PAGE_SHIFT < A.BITS_PER_LONG) (len : Nat) :
    A.PAGE_ALIGN len < 2 ^ A.BITS_PER_LONG := by
  rw [PAGE_ALIGN_eq A hps]
  exact lt_of_le_of_lt (Nat.div_mul_le_self _ _) (ulong_lt A _)

/-- The largest page offset whose byte offset fits in a word. -/
theorem max_pgoff_eq (hps : A.PAGE_SHIFT < A.BITS_PER_LONG) :
    A.ulong_not 0 >>> A.PAGE_SHIFT = 2 ^ (A.BITS_PER_LONG - A.PAGE_SHIFT) - 1 := by
  have hpos := Nat.two_pow_pos A.PAGE_SHIFT
  have hsplit : 2 ^ A.BITS_PER_LONG =
      2 ^ A.PAGE_SHIFT * 2 ^ (A.BITS_PER_LONG - A.PAGE_SHIFT) := by
    rw [← Nat.pow_add]; congr 1; omega
  obtain ⟨q, hq⟩ : ∃ q, 2 ^ (A.BITS_PER_LONG - A.PAGE_SHIFT) = q + 1 :=
    ⟨2 ^ (A.BITS_PER_LONG - A.PAGE_SHIFT) - 1,
      by have := Nat.two_pow_pos (A.BITS_PER_LONG - A.PAGE_SHIFT); omega⟩
  unfold Arch.ulong_not Arch.ulong
  rw [Nat.zero_mod, Nat.sub_zero, Nat.shiftRight_eq_div_pow, hsplit, hq, Nat.add_sub_cancel]
  generalize 2 ^ A.PAGE_SHIFT = P at hpos
  have hmul : P * (q + 1) = q * P + P := by ring
  apply Nat.div_eq_of_lt_le
  · omega
  · have : (q + 1) * P = q * P + P := by ring
    show P * (q + 1) - 1 < (q + 1) * P
    omega

/-- A page offset that passes the overflow check converts to bytes exactly. -/
theorem offset_eq (hps : A.PAGE_SHIFT < A.BITS_PER_LONG) {pgoff : Nat}
    (h : ¬ pgoff > A.ulong_not 0 >>> A.PAGE_SHIFT) :
    A.ulong (pgoff <<< A.PAGE_SHIFT) = pgoff * 2 ^ A.PAGE_SHIFT := by
  rw [max_pgoff_eq A hps] at h
  have hsplit : 2 ^ A.BITS_PER_LONG =
      2 ^ (A.BITS_PER_LONG - A.PAGE_SHIFT) * 2 ^ A.PAGE_SHIFT := by
    rw [← Nat.pow_add]; congr 1; omega
  have hq := Nat.two_pow_pos (A.BITS_PER_LONG - A.PAGE_SHIFT)
  rw [Nat.shiftLeft_eq]
  apply ulong_of_lt
  rw [hsplit]
  exact Nat.mul_lt_mul_of_lt_of_le (by omega) (le_refl _) (Nat.two_pow_pos _)

/-- A page offset that fails the overflow check is beyond every aligned size. -/
theorem overflow_pgoff_large (hps : A.PAGE_SHIFT < A.BITS_PER_LONG) {pgoff : Nat}
    (h : pgoff > A.ulong_not 0 >>> A.PAGE_SHIFT) :
    2 ^ A.BITS_PER_LONG ≤ pgoff * 2 ^ A.PAGE_SHIFT := by
  rw [max_pgoff_eq A hps] at h
  have hsplit : 2 ^ A.BITS_PER_LONG =
      2 ^ (A.BITS_PER_LONG - A.PAGE_SHIFT) * 2 ^ A.PAGE_SHIFT := by
    rw [← Nat.pow_add]; congr 1; omega
  rw [hsplit]
  exact Nat.mul_le_mul_right _ (by omega)

/-- The page count of `dumfb_mmap_kmalloc`. -/
theorem pages_eq (hps : A.PAGE_SHIFT < A.BITS_PER_LONG) (len : Nat) :
    A.ulong (len + A.ulong_not A.PAGE_MASK) >>> A.PAGE_SHIFT =
      A.ulong (len + (2 ^ A.PAGE_SHIFT - 1)) / 2 ^ A.PAGE_SHIFT := by
  rw [not_PAGE_MASK_eq A hps, Nat.shiftRight_eq_div_pow]

end PageArithmetic

/-! ## Theorems: validation of mapping requests -/

example : arch64.PAGE_SIZE = 4096 := by decide
example : arch64.PAGE_ALIGN 24 = 4096 := by decide
example : arch64.PAGE_ALIGN 4097 = 8192 := by decide
example : dumfb_mmap arch64 kernel_scattered 5 info_4x2 ⟨0x7000, 0x9000, 0, 3⟩ =
    ⟨some (-22), []⟩ := by decide
example : dumfb_mmap arch64 kernel_scattered 5 info_4x2 ⟨0x7000, 0x8000, 0, 3⟩ =
    ⟨some 0, [Event.vmalloc_to_pfn 0x100000,
      Event.remap_pfn_range 0x7000 0x100 4096 3 0]⟩ := by decide

/-- C1: in both layouts, for every buffer length, page offset and
page-multiple region size `size = vm_end - vm_start`: if
`size > PAGE_ALIGN(screen_size) - vm_pgoff * PAGE_SIZE` (over the integers)
then the request fails with `-EINVAL` (-22) and no kernel call, in particular
no `remap_pfn_range` call, is made. -/
theorem dumfb_mmap_region_too_large (A : Arch) (K : Kernel) (fuel : Nat) (info : fb_info)
    (vma : vm_area_struct) (hps : A.PAGE_SHIFT < A.BITS_PER_LONG)
    (hsize : A.ulong_sub vma.vm_end vma.vm_start % A.PAGE_SIZE = 0)
    (hbig : (A.ulong_sub vma.vm_end vma.vm_start : Int) >
      (A.PAGE_ALIGN info.screen_size : Int) - ((vma.vm_pgoff * A.PAGE_SIZE : Nat) : Int)) :
    dumfb_mmap_vmalloc A K fuel info.screen_buffer info.screen_size vma = ⟨some (-22), []⟩ ∧
    dumfb_mmap_kmalloc A K info.screen_buffer info.screen_size vma = ⟨some (-22), []⟩ ∧
    dumfb_mmap A K fuel info vma = ⟨some (-22), []⟩ := by
  have hP := PAGE_SIZE_eq A hps
  rw [hP] at hsize hbig
  have hbig2 : A.PAGE_ALIGN info.screen_size <
      A.ulong_sub vma.vm_end vma.vm_start + vma.vm_pgoff * 2 ^ A.PAGE_SHIFT := by
    omega
  have hv : dumfb_mmap_vmalloc A K fuel info.screen_buffer info.screen_size vma =
      ⟨some (-22), []⟩ := by
    simp only [dumfb_mmap_vmalloc, EINVAL]
    split_ifs with h1 h2 h3
    · rfl
    · rfl
    · rfl
    · exfalso
      rw [offset_eq A hps h1] at h2 h3
      rw [ulong_sub_eq A (not_lt.mp h2) (PAGE_ALIGN_lt A hps _)] at h3
      omega
  have hk : dumfb_mmap_kmalloc A K info.screen_buffer info.screen_size vma =
      ⟨some (-22), []⟩ := by
    simp only [dumfb_mmap_kmalloc, EINVAL]
    rw [pages_eq A hps]
    rw [PAGE_ALIGN_eq A hps] at hbig2
    split_ifs with h1 h2
    · rfl
    · rfl
    · exfalso
      have hpages : A.ulong (info.screen_size + (2 ^ A.PAGE_SHIFT - 1)) / 2 ^ A.PAGE_SHIFT <
          2 ^ A.BITS_PER_LONG :=
        lt_of_le_of_lt (Nat.div_le_self _ _) (ulong_lt A _)
      rw [ulong_sub_eq A (not_lt.mp h1) hpages, Nat.shiftRight_eq_div_pow] at h2
      have hmul := Nat.div_mul_cancel (Nat.dvd_of_mod_eq_zero hsize)
      rw [← hmul, ← Nat.add_mul] at hbig2
      have := Nat.lt_of_mul_lt_mul_right hbig2
      omega
  refine ⟨hv, hk, ?_⟩
  unfold dumfb_mmap
  split_ifs
  · exact hv
  · exact hk

/-- Witness of C1: a two-page region requested from the one-page buffer of the
4 x 2 device. -/
theorem dumfb_mmap_region_too_large_witness :
    arch64.PAGE_SHIFT < arch64.BITS_PER_LONG ∧
    arch64.ulong_sub 0x9000 0x7000 % arch64.PAGE_SIZE = 0 ∧
    dumfb_mmap_vmalloc arch64 kernel_scattered 5 info_4x2.screen_buffer info_4x2.screen_size
      ⟨0x7000, 0x9000, 0, 3⟩ = ⟨some (-22), []⟩ ∧
    dumfb_mmap_kmalloc arch64 kernel_scattered info_4x2.screen_buffer info_4x2.screen_size
      ⟨0x7000, 0x9000, 0, 3⟩ = ⟨some (-22), []⟩ ∧
    dumfb_mmap arch64 kernel_scattered 5 info_4x2 ⟨0x7000, 0x9000, 0, 3⟩ =
      ⟨some (-22), []⟩ :=
  ⟨by decide, by decide,
    dumfb_mmap_region_too_large arch64 kernel_scattered 5 info_4x2 ⟨0x7000, 0x9000, 0, 3⟩
      (by decide) (by decide) (by decide)⟩

/-- C2: in both layouts, for every buffer length and every page offset
`vm_pgoff`, also one whose byte offset does not fit the machine word: if
`vm_pgoff * PAGE_SIZE` (over the naturals) exceeds `PAGE_ALIGN(screen_size)`
then the request fails with `-EINVAL` (-22) and no kernel call has been made,
so no page is mapped. -/
theorem dumfb_mmap_offset_out_of_range (A : Arch) (K : Kernel) (fuel : Nat)
    (info : fb_info) (vma : vm_area_struct) (hps : A.PAGE_SHIFT < A.BITS_PER_LONG)
    (hoff : A.PAGE_ALIGN info.screen_size < vma.vm_pgoff * A.PAGE_SIZE) :
    dumfb_mmap_vmalloc A K fuel info.screen_buffer info.screen_size vma = ⟨some (-22), []⟩ ∧
    dumfb_mmap_kmalloc A K info.screen_buffer info.screen_size vma = ⟨some (-22), []⟩ ∧
    dumfb_mmap A K fuel info vma = ⟨some (-22), []⟩ := by
  rw [PAGE_SIZE_eq A hps] at hoff
  have hv : dumfb_mmap_vmalloc A K fuel info.screen_buffer info.screen_size vma =
      ⟨some (-22), []⟩ := by
    simp only [dumfb_mmap_vmalloc, EINVAL]
    split_ifs with h1 h2 h3
    · rfl
    · rfl
    · rfl
    · exfalso
      rw [offset_eq A hps h1] at h2
      omega
  have hk : dumfb_mmap_kmalloc A K info.screen_buffer info.screen_size vma =
      ⟨some (-22), []⟩ := by
    simp only [dumfb_mmap_kmalloc, EINVAL]
    rw [pages_eq A hps]
    rw [PAGE_ALIGN_eq A hps] at hoff
    split_ifs with h1 h2
    · rfl
    · rfl
    · exfalso
      have := Nat.lt_of_mul_lt_mul_right hoff
      omega
  refine ⟨hv, hk, ?_⟩
  unfold dumfb_mmap
  split_ifs
  · exact hv
  · exact hk

/-- Witness of C2: page offset `2 ^ 52 + 1`, whose byte offset `2 ^ 64 + 4096`
wraps around to 4096 in a 64-bit word. -/
theorem dumfb_mmap_offset_out_of_range_witness :
    arch64.PAGE_SHIFT < arch64.BITS_PER_LONG ∧
    arch64.PAGE_ALIGN info_4x2.screen_size < (2 ^ 52 + 1) * arch64.PAGE_SIZE ∧
    dumfb_mmap_vmalloc arch64 kernel_scattered 5 info_4x2.screen_buffer info_4x2.screen_size
      ⟨0x7000, 0x7000, 2 ^ 52 + 1, 3⟩ = ⟨some (-22), []⟩ ∧
    dumfb_mmap_kmalloc arch64 kernel_scattered info_4x2.screen_buffer info_4x2.screen_size
      ⟨0x7000, 0x7000, 2 ^ 52 + 1, 3⟩ = ⟨some (-22), []⟩ ∧
    dumfb_mmap arch64 kernel_scattered 5 info_4x2 ⟨0x7000, 0x7000, 2 ^ 52 + 1, 3⟩ =
      ⟨some (-22), []⟩ :=
  ⟨by decide, by decide,
    dumfb_mmap_offset_out_of_range arch64 kernel_scattered 5 info_4x2
      ⟨0x7000, 0x7000, 2 ^ 52 + 1, 3⟩ (by decide) (by decide)⟩

/-! ## Lemmas: the scattered page walk -/

section PageWalk

variable (A : Arch) (K : Kernel) (vma : vm_area_struct)

theorem step_ret_succ (start pos k : Nat) :
    step_ret A K vma start pos (k + 1) =
      step_ret A K vma (start + A.PAGE_SIZE) (pos + A.PAGE_SIZE) k := by
  have h1 : start + (k + 1) * A.PAGE_SIZE = start + A.PAGE_SIZE + k * A.PAGE_SIZE := by ring
  have h2 : pos + (k + 1) * A.PAGE_SIZE = pos + A.PAGE_SIZE + k * A.PAGE_SIZE := by ring
  simp only [step_ret, h1, h2]

theorem step_events_succ (start pos k : Nat) :
    step_events A K vma start pos (k + 1) =
      step_events A K vma (start + A.PAGE_SIZE) (pos + A.PAGE_SIZE) k := by
  have h1 : start + (k + 1) * A.PAGE_SIZE = start + A.PAGE_SIZE + k * A.PAGE_SIZE := by ring
  have h2 : pos + (k + 1) * A.PAGE_SIZE = pos + A.PAGE_SIZE + k * A.PAGE_SIZE := by ring
  simp only [step_events, step_ret, h1, h2]

theorem walk_events_succ (start pos : Nat) (n : Nat) :
    walk_events A K vma start pos (n + 1) =
      step_events A K vma start pos 0 ++
        walk_events A K vma (start + A.PAGE_SIZE) (pos + A.PAGE_SIZE) n := by
  induction n with
  | zero => simp [walk_events]
  | succ n ih =>
    rw [walk_events, ih, walk_events, step_events_succ, List.append_assoc]

theorem loop_zero (fuel start pos : Nat) :
    dumfb_mmap_vmalloc_loop A K vma fuel start pos 0 = ⟨some 0, []⟩ := by
  cases fuel <;> simp [dumfb_mmap_vmalloc_loop]

theorem loop_no_fuel (start pos size : Nat) :
    (dumfb_mmap_vmalloc_loop A K vma 0 start pos size).trace = [] := by
  unfold dumfb_mmap_vmalloc_loop
  split_ifs <;> rfl

/-- One iteration of the loop on a region of `n + 1` pages. -/
theorem loop_step (hps : A.PAGE_SHIFT < A.BITS_PER_LONG) (fuel start pos n : Nat) :
    dumfb_mmap_vmalloc_loop A K vma (fuel + 1) start pos ((n + 1) * A.PAGE_SIZE) =
      if step_ret A K vma start pos 0 < 0 then
        ⟨some (step_ret A K vma start pos 0), step_events A K vma start pos 0⟩
      else
        ⟨(dumfb_mmap_vmalloc_loop A K vma fuel (A.ulong (start + A.PAGE_SIZE))
            (A.ulong (pos + A.PAGE_SIZE)) (n * A.PAGE_SIZE)).ret,
          step_events A K vma start pos 0 ++
            (dumfb_mmap_vmalloc_loop A K vma fuel (A.ulong (start + A.PAGE_SIZE))
              (A.ulong (pos + A.PAGE_SIZE)) (n * A.PAGE_SIZE)).trace⟩ := by
  have hP := PAGE_SIZE_pos A hps
  have hpos : 0 < (n + 1) * A.PAGE_SIZE := Nat.mul_pos (Nat.succ_pos n) hP
  have hnext : (if (n + 1) * A.PAGE_SIZE > A.PAGE_SIZE then
      (n + 1) * A.PAGE_SIZE - A.PAGE_SIZE else 0) = n * A.PAGE_SIZE := by
    have hmul : (n + 1) * A.PAGE_SIZE = n * A.PAGE_SIZE + A.PAGE_SIZE := by ring
    rcases Nat.eq_zero_or_pos n with h0 | h0
    · subst h0; simp
    · have : 0 < n * A.PAGE_SIZE := Nat.mul_pos h0 hP
      rw [if_pos (by omega)]; omega
  rw [dumfb_mmap_vmalloc_loop, if_pos hpos]
  simp only [hnext, step_ret, step_events, Nat.zero_mul, Nat.add_zero]

/-- Every step succeeds: the walk makes exactly the calls of steps
`0 .. n - 1` and returns 0. -/
theorem loop_all_ok (hps : A.PAGE_SHIFT < A.BITS_PER_LONG) :
    ∀ (n fuel start pos : Nat), n ≤ fuel →
      start + n * A.PAGE_SIZE ≤ 2 ^ A.BITS_PER_LONG →
      pos + n * A.PAGE_SIZE ≤ 2 ^ A.BITS_PER_LONG →
      (∀ k, k < n → 0 ≤ step_ret A K vma start pos k) →
      dumfb_mmap_vmalloc_loop A K vma fuel start pos (n * A.PAGE_SIZE) =
        ⟨some 0, walk_events A K vma start pos n⟩ := by
  have hP := PAGE_SIZE_pos A hps
  intro n
  induction n with
  | zero =>
    intro fuel start pos _ _ _ _
    rw [Nat.zero_mul, loop_zero]; rfl
  | succ n ih =>
    intro fuel start pos hfuel hstart hpos hok
    obtain ⟨f, rfl⟩ : ∃ f, fuel = f + 1 := ⟨fuel - 1, by omega⟩
    have h0 : ¬ step_ret A K vma start pos 0 < 0 := not_lt.mpr (hok 0 (Nat.succ_pos n))
    rw [loop_step A K vma hps, if_neg h0, walk_events_succ]
    have hmul : (n + 1) * A.PAGE_SIZE = n * A.PAGE_SIZE + A.PAGE_SIZE := by ring
    rcases Nat.eq_zero_or_pos n with hn | hn
    · subst hn
      rw [Nat.zero_mul, loop_zero]; rfl
    · have hnP : 0 < n * A.PAGE_SIZE := Nat.mul_pos hn hP
      rw [ulong_of_lt A (show start + A.PAGE_SIZE < 2 ^ A.BITS_PER_LONG by omega),
        ulong_of_lt A (show pos + A.PAGE_SIZE < 2 ^ A.BITS_PER_LONG by omega)]
      rw [ih f (start + A.PAGE_SIZE) (pos + A.PAGE_SIZE) (by omega) (by omega) (by omega)
        (fun k hk => by rw [← step_ret_succ]; exact hok (k + 1) (by omega))]

/-- Step `k` is the first to fail: the walk makes exactly the calls of steps
`0 .. k` and returns what step `k` returned. -/
theorem loop_first_failure (hps : A.PAGE_SHIFT < A.BITS_PER_LONG) :
    ∀ (k n fuel start pos : Nat), k < n → k < fuel →
      start + n * A.PAGE_SIZE ≤ 2 ^ A.BITS_PER_LONG →
      pos + n * A.PAGE_SIZE ≤ 2 ^ A.BITS_PER_LONG →
      step_ret A K vma start pos k < 0 →
      (∀ j, j < k → 0 ≤ step_ret A K vma start pos j) →
      dumfb_mmap_vmalloc_loop A K vma fuel start pos (n * A.PAGE_SIZE) =
        ⟨some (step_ret A K vma start pos k), walk_events A K vma start pos (k + 1)⟩ := by
  have hP := PAGE_SIZE_pos A hps
  intro k
  induction k with
  | zero =>
    intro n fuel start pos hn hfuel _ _ hfail _
    obtain ⟨f, rfl⟩ : ∃ f, fuel = f + 1 := ⟨fuel - 1, by omega⟩
    obtain ⟨m, rfl⟩ : ∃ m, n = m + 1 := ⟨n - 1, by omega⟩
    rw [loop_step A K vma hps, if_pos hfail]
    simp [walk_events]
  | succ k ih =>
    intro n fuel start pos hn hfuel hstart hpos hfail hok
    obtain ⟨f, rfl⟩ : ∃ f, fuel = f + 1 := ⟨fuel - 1, by omega⟩
    obtain ⟨m, rfl⟩ : ∃ m, n = m + 1 := ⟨n - 1, by omega⟩
    have h0 : ¬ step_ret A K vma start pos 0 < 0 := not_lt.mpr (hok 0 (Nat.succ_pos k))
    have hmul : (m + 1) * A.PAGE_SIZE = m * A.PAGE_SIZE + A.PAGE_SIZE := by ring
    have hmP : 0 < m * A.PAGE_SIZE := Nat.mul_pos (by omega) hP
    rw [loop_step A K vma hps, if_neg h0, walk_events_succ,
      ulong_of_lt A (show start + A.PAGE_SIZE < 2 ^ A.BITS_PER_LONG by omega),
      ulong_of_lt A (show pos + A.PAGE_SIZE < 2 ^ A.BITS_PER_LONG by omega),
      ih m f (start + A.PAGE_SIZE) (pos + A.PAGE_SIZE) (by omega) (by omega) (by omega)
        (by omega) (by rw [← step_ret_succ]; exact hfail)
        (fun j hj => by rw [← step_ret_succ]; exact hok (j + 1) (by omega)),
      step_ret_succ]

/-- Every address the walk passes to `vmalloc_to_pfn` is the start of a page
of the walked range. -/
theorem loop_trace_bounds (hps : A.PAGE_SHIFT < A.BITS_PER_LONG) :
    ∀ (n fuel start pos : Nat), pos + n * A.PAGE_SIZE ≤ 2 ^ A.BITS_PER_LONG →
      ∀ p, Event.vmalloc_to_pfn p ∈
          (dumfb_mmap_vmalloc_loop A K vma fuel start pos (n * A.PAGE_SIZE)).trace →
        pos ≤ p ∧ p + A.PAGE_SIZE ≤ pos + n * A.PAGE_SIZE := by
  have hP := PAGE_SIZE_pos A hps
  intro n
  induction n with
  | zero =>
    intro fuel start pos _ p hp
    rw [Nat.zero_mul, loop_zero] at hp
    simp at hp
  | succ n ih =>
    intro fuel start pos hpos p hp
    have hmul : (n + 1) * A.PAGE_SIZE = n * A.PAGE_SIZE + A.PAGE_SIZE := by ring
    cases fuel with
    | zero => rw [loop_no_fuel] at hp; simp at hp
    | succ f =>
      rw [loop_step A K vma hps] at hp
      have hfirst : Event.vmalloc_to_pfn p ∈ step_events A K vma start pos 0 →
          pos ≤ p ∧ p + A.PAGE_SIZE ≤ pos + (n + 1) * A.PAGE_SIZE := by
        intro h
        simp [step_events] at h
        omega
      split_ifs at hp with hret
      · exact hfirst hp
      · rcases List.mem_append.mp hp with h | h
        · exact hfirst h
        · rcases Nat.eq_zero_or_pos n with hn | hn
          · subst hn
            rw [Nat.zero_mul, loop_zero] at h
            simp at h
          · have hnP : 0 < n * A.PAGE_SIZE := Nat.mul_pos hn hP
            rw [ulong_of_lt A (show pos + A.PAGE_SIZE < 2 ^ A.BITS_PER_LONG by omega)] at h
            have := ih f _ (pos + A.PAGE_SIZE) (by omega) p h
            omega

end PageWalk

/-! ## Theorems: accepted mapping requests -/

/-- The state of `dumfb_mmap_vmalloc` when its loop is entered with a region
of `n` pages: the offset is exact and the walked range lies in the buffer. -/
theorem vmalloc_accepts_range (A : Arch) (addr_len : Nat) (vma : vm_area_struct)
    (n : Nat) (hps : A.PAGE_SHIFT < A.BITS_PER_LONG)
    (hvalid : vmalloc_accepts A addr_len vma)
    (hn : A.ulong_sub vma.vm_end vma.vm_start = n * A.PAGE_SIZE) :
    A.ulong (vma.vm_pgoff <<< A.PAGE_SHIFT) = vma.vm_pgoff * A.PAGE_SIZE ∧
    vma.vm_pgoff * A.PAGE_SIZE + n * A.PAGE_SIZE ≤ A.PAGE_ALIGN addr_len := by
  obtain ⟨h1, h2, h3⟩ := hvalid
  have hoff := offset_eq A hps h1
  rw [← PAGE_SIZE_eq A hps] at hoff
  rw [hoff] at h2 h3
  rw [ulong_sub_eq A (not_lt.mp h2) (PAGE_ALIGN_lt A hps _), hn] at h3
  exact ⟨hoff, by omega⟩

example : dumfb_mmap_vmalloc arch64 kernel_scattered 2 0x100000 8192 ⟨0x7000, 0x9000, 0, 3⟩ =
    ⟨some 0, [Event.vmalloc_to_pfn 0x100000, Event.remap_pfn_range 0x7000 0x100 4096 3 0,
      Event.vmalloc_to_pfn 0x101000, Event.remap_pfn_range 0x8000 0x101 4096 3 0]⟩ := by
  decide
example : dumfb_mmap_vmalloc arch64 kernel_scattered 1 0x100000 8192 ⟨0x7000, 0x9000, 0, 3⟩ =
    ⟨none, [Event.vmalloc_to_pfn 0x100000, Event.remap_pfn_range 0x7000 0x100 4096 3 0]⟩ := by
  decide
example : dumfb_mmap_kmalloc arch64 kernel_scattered 0x100000 8192 ⟨0x7000, 0x8000, 1, 3⟩ =
    ⟨some 0, [Event.remap_pfn_range 0x7000 0x101 4096 3 0]⟩ := by
  decide

/-- C9: every buffer page an accepted mapping exposes lies inside the
page-aligned buffer.  For a page-multiple region, a buffer whose aligned
extent lies in the address space and whose frame numbers fit the machine
word: (scattered) every address `p` passed to `vmalloc_to_pfn` satisfies
`addr <= p` and `p + PAGE_SIZE <= addr + PAGE_ALIGN(addr_len)`, whatever the
fuel and wherever the walk stops; (contiguous) when `remap_pfn_range` is
called, `vm_pgoff` is at most the page count, so `pages - vm_pgoff` does not
underflow, the frame passed is `pfn + vm_pgoff`, the size passed is the region
size, and `pfn + vm_pgoff + size / PAGE_SIZE` is at most
`pfn + ceil(addr_len / PAGE_SIZE)`. -/
theorem dumfb_mmap_bounds (A : Arch) (K : Kernel) (fuel addr addr_len : Nat)
    (vma : vm_area_struct) (hps : A.PAGE_SHIFT < A.BITS_PER_LONG)
    (hsize : A.ulong_sub vma.vm_end vma.vm_start % A.PAGE_SIZE = 0)
    (hbuf : addr + A.PAGE_ALIGN addr_len ≤ 2 ^ A.BITS_PER_LONG)
    (hphys : K.virt_to_phys addr >>> A.PAGE_SHIFT +
      (addr_len + (A.PAGE_SIZE - 1)) / A.PAGE_SIZE < 2 ^ A.BITS_PER_LONG) :
    (∀ p, Event.vmalloc_to_pfn p ∈ (dumfb_mmap_vmalloc A K fuel addr addr_len vma).trace →
      addr ≤ p ∧ p + A.PAGE_SIZE ≤ addr + A.PAGE_ALIGN addr_len) ∧
    (∀ a pfn sz prot ret,
      Event.remap_pfn_range a pfn sz prot ret ∈ (dumfb_mmap_kmalloc A K addr addr_len vma).trace →
        vma.vm_pgoff ≤ A.ulong (addr_len + A.ulong_not A.PAGE_MASK) >>> A.PAGE_SHIFT ∧
        pfn = K.virt_to_phys addr >>> A.PAGE_SHIFT + vma.vm_pgoff ∧
        sz = A.ulong_sub vma.vm_end vma.vm_start ∧
        K.virt_to_phys addr >>> A.PAGE_SHIFT ≤ pfn ∧
        pfn + sz / A.PAGE_SIZE ≤ K.virt_to_phys addr >>> A.PAGE_SHIFT +
          (addr_len + (A.PAGE_SIZE - 1)) / A.PAGE_SIZE) := by
  have hP := PAGE_SIZE_pos A hps
  constructor
  · intro p hp
    simp only [dumfb_mmap_vmalloc] at hp
    split_ifs at hp with h1 h2 h3
    · simp at hp
    · simp at hp
    · simp at hp
    · obtain ⟨n, hn⟩ : ∃ n, A.ulong_sub vma.vm_end vma.vm_start = n * A.PAGE_SIZE :=
        ⟨_, (Nat.div_mul_cancel (Nat.dvd_of_mod_eq_zero hsize)).symm⟩
      obtain ⟨hoff, hrange⟩ := vmalloc_accepts_range A addr_len vma n hps ⟨h1, h2, h3⟩ hn
      rw [hn, hoff] at hp
      rcases Nat.eq_zero_or_pos n with h0 | h0
      · subst h0
        rw [Nat.zero_mul, loop_zero] at hp
        simp at hp
      · have hnP : 0 < n * A.PAGE_SIZE := Nat.mul_pos h0 hP
        rw [ulong_of_lt A (show addr + vma.vm_pgoff * A.PAGE_SIZE < 2 ^ A.BITS_PER_LONG
          by omega)] at hp
        have := loop_trace_bounds A K vma hps n fuel vma.vm_start
          (addr + vma.vm_pgoff * A.PAGE_SIZE) (by omega) p hp
        omega
  · intro a pfn sz prot ret hmem
    simp only [dumfb_mmap_kmalloc] at hmem
    have hceil : A.ulong (addr_len + A.ulong_not A.PAGE_MASK) >>> A.PAGE_SHIFT ≤
        (addr_len + (A.PAGE_SIZE - 1)) / A.PAGE_SIZE := by
      rw [pages_eq A hps, PAGE_SIZE_eq A hps]
      exact Nat.div_le_div_right (ulong_le A _)
    have hpages : A.ulong (addr_len + A.ulong_not A.PAGE_MASK) >>> A.PAGE_SHIFT <
        2 ^ A.BITS_PER_LONG := by
      rw [Nat.shiftRight_eq_div_pow]
      exact lt_of_le_of_lt (Nat.div_le_self _ _) (ulong_lt A _)
    split_ifs at hmem with h1 h2
    · simp at hmem
    · simp at hmem
    · simp only [List.mem_singleton, Event.remap_pfn_range.injEq] at hmem
      obtain ⟨_, hpfn, hsz, _, _⟩ := hmem
      have hle : vma.vm_pgoff ≤ A.ulong (addr_len + A.ulong_not A.PAGE_MASK) >>> A.PAGE_SHIFT :=
        not_lt.mp h1
      rw [ulong_sub_eq A hle hpages, Nat.shiftRight_eq_div_pow, ← PAGE_SIZE_eq A hps] at h2
      rw [ulong_of_lt A (show K.virt_to_phys addr >>> A.PAGE_SHIFT < 2 ^ A.BITS_PER_LONG
        by omega), ulong_of_lt A (by omega)] at hpfn
      subst hpfn hsz
      refine ⟨hle, rfl, rfl, Nat.le_add_right _ _, ?_⟩
      omega

/-- Witness of C9: the second page of a two-page buffer at `0x100000`. -/
theorem dumfb_mmap_bounds_witness :
    arch64.PAGE_SHIFT < arch64.BITS_PER_LONG ∧
    arch64.ulong_sub 0x8000 0x7000 % arch64.PAGE_SIZE = 0 ∧
    0x100000 + arch64.PAGE_ALIGN 8192 ≤ 2 ^ arch64.BITS_PER_LONG ∧
    (∀ p, Event.vmalloc_to_pfn p ∈
        (dumfb_mmap_vmalloc arch64 kernel_scattered 1 0x100000 8192
          ⟨0x7000, 0x8000, 1, 3⟩).trace →
      0x100000 ≤ p ∧ p + arch64.PAGE_SIZE ≤ 0x100000 + arch64.PAGE_ALIGN 8192) ∧
    (∀ a pfn sz prot ret,
      Event.remap_pfn_range a pfn sz prot ret ∈
          (dumfb_mmap_kmalloc arch64 kernel_scattered 0x100000 8192
            ⟨0x7000, 0x8000, 1, 3⟩).trace →
        1 ≤ arch64.ulong (8192 + arch64.ulong_not arch64.PAGE_MASK) >>> arch64.PAGE_SHIFT ∧
        pfn = kernel_scattered.virt_to_phys 0x100000 >>> arch64.PAGE_SHIFT + 1 ∧
        sz = arch64.ulong_sub 0x8000 0x7000 ∧
        kernel_scattered.virt_to_phys 0x100000 >>> arch64.PAGE_SHIFT ≤ pfn ∧
        pfn + sz / arch64.PAGE_SIZE ≤
          kernel_scattered.virt_to_phys 0x100000 >>> arch64.PAGE_SHIFT +
            (8192 + (arch64.PAGE_SIZE - 1)) / arch64.PAGE_SIZE) :=
  ⟨by decide, by decide, by decide,
    dumfb_mmap_bounds arch64 kernel_scattered 1 0x100000 8192 ⟨0x7000, 0x8000, 1, 3⟩
      (by decide) (by decide) (by decide) (by decide)⟩

/-- C10: for a request that passes the three checks of `dumfb_mmap_vmalloc`
with a region of `n` pages (a well-formed area, `vm_start <= vm_end`, and a
buffer whose aligned extent lies in the address space), `n` iterations of
fuel are enough.  Step `k` resolves the frame of the buffer page at
`addr + vm_pgoff * PAGE_SIZE + k * PAGE_SIZE` and maps one page at
`vm_start + k * PAGE_SIZE` to it with `vm_page_prot` (`step_events`).  If
every step succeeds the result is 0 after exactly the calls of steps
`0 .. n - 1`; if step `k` is the first whose `remap_pfn_range` fails, the
result is the return value of that call after exactly the calls of steps `0 .. k`,
so the mappings of steps `0 .. k - 1` are established and nothing follows. -/
theorem dumfb_mmap_vmalloc_walk (A : Arch) (K : Kernel) (fuel addr addr_len n : Nat)
    (vma : vm_area_struct) (hps : A.PAGE_SHIFT < A.BITS_PER_LONG)
    (hvalid : vmalloc_accepts A addr_len vma)
    (hstart : vma.vm_start ≤ vma.vm_end) (hend : vma.vm_end < 2 ^ A.BITS_PER_LONG)
    (hn : vma.vm_end - vma.vm_start = n * A.PAGE_SIZE)
    (hbuf : addr + A.PAGE_ALIGN addr_len ≤ 2 ^ A.BITS_PER_LONG)
    (hfuel : n ≤ fuel) :
    ((∀ k, k < n →
        0 ≤ step_ret A K vma vma.vm_start (addr + vma.vm_pgoff * A.PAGE_SIZE) k) →
      dumfb_mmap_vmalloc A K fuel addr addr_len vma =
        ⟨some 0, walk_events A K vma vma.vm_start (addr + vma.vm_pgoff * A.PAGE_SIZE) n⟩) ∧
    (∀ k, k < n →
      step_ret A K vma vma.vm_start (addr + vma.vm_pgoff * A.PAGE_SIZE) k < 0 →
      (∀ j, j < k →
        0 ≤ step_ret A K vma vma.vm_start (addr + vma.vm_pgoff * A.PAGE_SIZE) j) →
      dumfb_mmap_vmalloc A K fuel addr addr_len vma =
        ⟨some (step_ret A K vma vma.vm_start (addr + vma.vm_pgoff * A.PAGE_SIZE) k),
          walk_events A K vma vma.vm_start (addr + vma.vm_pgoff * A.PAGE_SIZE) (k + 1)⟩) := by
  have hP := PAGE_SIZE_pos A hps
  have hsz : A.ulong_sub vma.vm_end vma.vm_start = n * A.PAGE_SIZE := by
    rw [ulong_sub_eq A hstart hend, hn]
  obtain ⟨hoff, hrange⟩ := vmalloc_accepts_range A addr_len vma n hps hvalid hsz
  have hunfold : dumfb_mmap_vmalloc A K fuel addr addr_len vma =
      dumfb_mmap_vmalloc_loop A K vma fuel vma.vm_start
        (A.ulong (addr + vma.vm_pgoff * A.PAGE_SIZE)) (n * A.PAGE_SIZE) := by
    obtain ⟨h1, h2, h3⟩ := hvalid
    simp only [dumfb_mmap_vmalloc]
    rw [if_neg h1, if_neg h2, if_neg h3, hsz, hoff]
  rw [hunfold]
  rcases Nat.eq_zero_or_pos n with h0 | h0
  · subst h0
    constructor
    · intro _
      rw [Nat.zero_mul, loop_zero]; rfl
    · intro k hk
      exact absurd hk (Nat.not_lt_zero k)
  · have hnP : 0 < n * A.PAGE_SIZE := Nat.mul_pos h0 hP
    rw [ulong_of_lt A (show addr + vma.vm_pgoff * A.PAGE_SIZE < 2 ^ A.BITS_PER_LONG by omega)]
    constructor
    · intro hok
      exact loop_all_ok A K vma hps n fuel _ _ hfuel (by omega) (by omega) hok
    · intro k hk hfail hok
      exact loop_first_failure A K vma hps k n fuel _ _ hk (by omega) (by omega) (by omega)
        hfail hok

example : dumfb_mmap_vmalloc arch64 kernel_second_fails 3 0x100000 12288
    ⟨0x7000, 0xa000, 0, 3⟩ =
    ⟨some (-12), [Event.vmalloc_to_pfn 0x100000, Event.remap_pfn_range 0x7000 0x100 4096 3 0,
      Event.vmalloc_to_pfn 0x101000, Event.remap_pfn_range 0x8000 0x101 4096 3 (-12)]⟩ := by
  decide

/-- Witness of C10: a three-page request on a three-page buffer, in a kernel
where the second page cannot be mapped. -/
theorem dumfb_mmap_vmalloc_walk_witness :
    arch64.PAGE_SHIFT < arch64.BITS_PER_LONG ∧
    vmalloc_accepts arch64 12288 ⟨0x7000, 0xa000, 0, 3⟩ ∧
    0xa000 - 0x7000 = 3 * arch64.PAGE_SIZE ∧
    0x100000 + arch64.PAGE_ALIGN 12288 ≤ 2 ^ arch64.BITS_PER_LONG ∧
    ((∀ k, k < 3 →
        0 ≤ step_ret arch64 kernel_second_fails ⟨0x7000, 0xa000, 0, 3⟩ 0x7000
          (0x100000 + 0 * arch64.PAGE_SIZE) k) →
      dumfb_mmap_vmalloc arch64 kernel_second_fails 3 0x100000 12288 ⟨0x7000, 0xa000, 0, 3⟩ =
        ⟨some 0, walk_events arch64 kernel_second_fails ⟨0x7000, 0xa000, 0, 3⟩ 0x7000
          (0x100000 + 0 * arch64.PAGE_SIZE) 3⟩) ∧
    (∀ k, k < 3 →
      step_ret arch64 kernel_second_fails ⟨0x7000, 0xa000, 0, 3⟩ 0x7000
        (0x100000 + 0 * arch64.PAGE_SIZE) k < 0 →
      (∀ j, j < k →
        0 ≤ step_ret arch64 kernel_second_fails ⟨0x7000, 0xa000, 0, 3⟩ 0x7000
          (0x100000 + 0 * arch64.PAGE_SIZE) j) →
      dumfb_mmap_vmalloc arch64 kernel_second_fails 3 0x100000 12288 ⟨0x7000, 0xa000, 0, 3⟩ =
        ⟨some (step_ret arch64 kernel_second_fails ⟨0x7000, 0xa000, 0, 3⟩ 0x7000
            (0x100000 + 0 * arch64.PAGE_SIZE) k),
          walk_events arch64 kernel_second_fails ⟨0x7000, 0xa000, 0, 3⟩ 0x7000
            (0x100000 + 0 * arch64.PAGE_SIZE) (k + 1)⟩) :=
  ⟨by decide, by decide, by decide, by decide,
    dumfb_mmap_vmalloc_walk arch64 kernel_second_fails 3 0x100000 12288 3
      ⟨0x7000, 0xa000, 0, 3⟩ (by decide) (by decide) (by decide) (by decide) (by decide)
      (by decide) (le_refl 3)⟩

/-! ## Lemmas: bit fields of a pixel word -/

theorem testBit_u32_shl (v o j : Nat) (ho : o < 32) :
    (u32_shl v o).testBit j = (decide (j < 32) && (decide (j ≥ o) && v.testBit (j - o))) := by
  unfold u32_shl u32
  rw [Nat.mod_eq_of_lt ho, Nat.testBit_mod_two_pow, Nat.testBit_shiftLeft]

theorem ones_mask_eq (n : Nat) (hn : n < 32) : ones_mask n = 2 ^ n - 1 := by
  unfold ones_mask u32_sub u32_shl u32
  rw [Nat.mod_eq_of_lt hn, Nat.shiftLeft_eq, Nat.one_mul, Nat.mod_mod]
  have hlt : 2 ^ n < 2 ^ 32 := Nat.pow_lt_pow_right (by decide) hn
  have hpos := Nat.two_pow_pos n
  rw [Nat.mod_eq_of_lt hlt]
  norm_num at hlt ⊢
  omega

theorem testBit_ones_mask (n k : Nat) (hn : n < 32) (hk : n ≤ k) :
    (ones_mask n).testBit k = false := by
  rw [ones_mask_eq n hn, Nat.testBit_two_pow_sub_one]
  simp
  omega

/-- Reading the field `(o, l)` of a word whose bits there are those of `v`. -/
theorem field_extract (W v o l : Nat) (hv : v < 2 ^ l)
    (h : ∀ i, i < l → W.testBit (o + i) = v.testBit i) :
    (W >>> o) &&& (2 ^ l - 1) = v := by
  apply Nat.eq_of_testBit_eq
  intro i
  rw [Nat.testBit_and, Nat.testBit_shiftRight, Nat.testBit_two_pow_sub_one]
  by_cases hi : i < l
  · simp [hi, h i hi]
  · have hvi : v < 2 ^ i :=
      lt_of_lt_of_le hv (Nat.pow_le_pow_right (by decide) (not_lt.mp hi))
    simp [hi, Nat.testBit_lt_two_pow hvi]

theorem chan_own (v o l i : Nat) (hfit : o + l ≤ 32) (hi : i < l) :
    (u32_shl v o).testBit (o + i) = v.testBit i := by
  rw [testBit_u32_shl v o _ (by omega)]
  have h1 : o + i < 32 := by omega
  simp [h1]

theorem chan_other (v o l j : Nat) (ho : o < 32) (hv : v < 2 ^ l)
    (hout : j < o ∨ o + l ≤ j) :
    (u32_shl v o).testBit j = false := by
  rw [testBit_u32_shl v o j ho]
  rcases hout with h | h
  · have : ¬ j ≥ o := by omega
    simp [this]
  · have hvj : v < 2 ^ (j - o) :=
      lt_of_lt_of_le hv (Nat.pow_le_pow_right (by decide) (by omega))
    simp [Nat.testBit_lt_two_pow hvj]

theorem mask_other (o l j : Nat) (ho : o < 32) (hl : l < 32) (hout : j < o ∨ o + l ≤ j) :
    (u32_shl (ones_mask l) o).testBit j = false := by
  rw [testBit_u32_shl _ o j ho]
  rcases hout with h | h
  · have : ¬ j ≥ o := by omega
    simp [this]
  · simp [testBit_ones_mask l (j - o) hl (by omega)]

/-- An 8-bit value truncated to a channel of `l` bits, as `draw_pixel` does. -/
theorem chan_value (x l : Nat) (hx : x < 256) (hl : l ≤ 8) :
    u32_shr x (u32_sub 8 l) = x >>> (8 - l) ∧ x >>> (8 - l) < 2 ^ l := by
  have hsub : u32_sub 8 l = 8 - l := by
    unfold u32_sub u32
    norm_num
    omega
  have hshr : u32_shr x (u32_sub 8 l) = x >>> (8 - l) := by
    unfold u32_shr
    rw [hsub, Nat.mod_eq_of_lt (by omega)]
  refine ⟨hshr, ?_⟩
  rw [Nat.shiftRight_eq_div_pow, Nat.div_lt_iff_lt_mul (Nat.two_pow_pos _), ← Nat.pow_add]
  have : l + (8 - l) = 8 := by omega
  rw [this]
  exact hx

/-! ## Theorems: the pixel codec -/

example : draw_pixel_bits dumfb_var ⟨0x12, 0x34, 0x56⟩ = 0x123456 := by decide
example : draw_pixel_bits
    ⟨0, 0, 0, 0, 16, ⟨11, 5, 0⟩, ⟨5, 6, 0⟩, ⟨0, 5, 0⟩, ⟨0, 0, 0⟩⟩ ⟨0xff, 0x80, 0x0f⟩ =
    0xfc01 := by decide
example : draw_pixel_bits var_transp_outside ⟨0x12, 0x34, 0x56⟩ = 0x1234ff := by decide

theorem testBit_draw_pixel_bits (var : fb_var_screeninfo) (c : rgb_t) (j : Nat) :
    (draw_pixel_bits var c).testBit j =
      ((u32_shl (u32_shr c.r (u32_sub 8 var.red.length)) var.red.offset).testBit j ||
        (u32_shl (u32_shr c.g (u32_sub 8 var.green.length)) var.green.offset).testBit j ||
        (u32_shl (u32_shr c.b (u32_sub 8 var.blue.length)) var.blue.offset).testBit j ||
        (decide (0 < var.transp.length) &&
          (u32_shl (ones_mask var.transp.length) var.transp.offset).testBit j)) := by
  unfold draw_pixel_bits
  by_cases ht : 0 < var.transp.length
  · simp [ht, Nat.testBit_or]
  · simp [ht, Nat.testBit_or]

/-- The transparency mask, when it lies inside the word, has no bit in a
colour channel it does not overlap. -/
theorem transp_other (ch t : fb_bitfield) (j : Nat) (hch : channel_ok ch)
    (ht : transp_ok t) (hdis : bitfield_disjoint ch t)
    (hj : ch.offset ≤ j ∧ j < ch.offset + ch.length) :
    (decide (0 < t.length) && (u32_shl (ones_mask t.length) t.offset).testBit j) = false := by
  unfold channel_ok at hch
  unfold transp_ok at ht
  unfold bitfield_disjoint at hdis
  by_cases hpos : 0 < t.length
  · rw [mask_other t.offset t.length j (by omega) (by omega) (by omega)]
    simp
  · simp [hpos]

/-- The general round trip of the word `draw_pixel` packs. -/
theorem draw_pixel_bits_fields (var : fb_var_screeninfo) (c : rgb_t)
    (hr : c.r < 256) (hg : c.g < 256) (hb : c.b < 256)
    (hred : channel_ok var.red) (hgreen : channel_ok var.green) (hblue : channel_ok var.blue)
    (htransp : transp_ok var.transp)
    (hrg : bitfield_disjoint var.red var.green) (hrb : bitfield_disjoint var.red var.blue)
    (hgb : bitfield_disjoint var.green var.blue)
    (hrt : bitfield_disjoint var.red var.transp)
    (hgt : bitfield_disjoint var.green var.transp)
    (hbt : bitfield_disjoint var.blue var.transp) :
    (draw_pixel_bits var c >>> var.red.offset) &&& (2 ^ var.red.length - 1) =
      c.r >>> (8 - var.red.length) ∧
    (draw_pixel_bits var c >>> var.green.offset) &&& (2 ^ var.green.length - 1) =
      c.g >>> (8 - var.green.length) ∧
    (draw_pixel_bits var c >>> var.blue.offset) &&& (2 ^ var.blue.length - 1) =
      c.b >>> (8 - var.blue.length) := by
  have hred2 := hred
  have hgreen2 := hgreen
  have hblue2 := hblue
  obtain ⟨hr1, hr8, hrfit⟩ := hred
  obtain ⟨hg1, hg8, hgfit⟩ := hgreen
  obtain ⟨hb1, hb8, hbfit⟩ := hblue
  obtain ⟨hrv, hrlt⟩ := chan_value c.r var.red.length hr hr8
  obtain ⟨hgv, hglt⟩ := chan_value c.g var.green.length hg hg8
  obtain ⟨hbv, hblt⟩ := chan_value c.b var.blue.length hb hb8
  have hrg2 := hrg
  have hrb2 := hrb
  have hgb2 := hgb
  unfold bitfield_disjoint at hrg2 hrb2 hgb2
  refine ⟨?_, ?_, ?_⟩
  · apply field_extract _ _ _ _ hrlt
    intro i hi
    rw [testBit_draw_pixel_bits, hrv, hgv, hbv,
      chan_own _ _ _ _ hrfit hi,
      chan_other _ _ _ (var.red.offset + i) (by omega) hglt (by omega),
      chan_other _ _ _ (var.red.offset + i) (by omega) hblt (by omega),
      transp_other var.red var.transp _ hred2 htransp hrt (by omega)]
    simp
  · apply field_extract _ _ _ _ hglt
    intro i hi
    rw [testBit_draw_pixel_bits, hrv, hgv, hbv,
      chan_own _ _ _ _ hgfit hi,
      chan_other _ _ _ (var.green.offset + i) (by omega) hrlt (by omega),
      chan_other _ _ _ (var.green.offset + i) (by omega) hblt (by omega),
      transp_other var.green var.transp _ hgreen2 htransp hgt (by omega)]
    simp
  · apply field_extract _ _ _ _ hblt
    intro i hi
    rw [testBit_draw_pixel_bits, hrv, hgv, hbv,
      chan_own _ _ _ _ hbfit hi,
      chan_other _ _ _ (var.blue.offset + i) (by omega) hrlt (by omega),
      chan_other _ _ _ (var.blue.offset + i) (by omega) hglt (by omega),
      transp_other var.blue var.transp _ hblue2 htransp hbt (by omega)]
    simp

/-- The bytes of the word packed in a format whose channels are those of
`dumfb_var`. -/
theorem draw_pixel_bits_fixed (var : fb_var_screeninfo) (c : rgb_t)
    (hr : c.r < 256) (hg : c.g < 256) (hb : c.b < 256)
    (hred : var.red = dumfb_var.red) (hgreen : var.green = dumfb_var.green)
    (hblue : var.blue = dumfb_var.blue) (htransp : var.transp = dumfb_var.transp) :
    (draw_pixel_bits var c >>> 16) &&& 0xff = c.r ∧
    (draw_pixel_bits var c >>> 8) &&& 0xff = c.g ∧
    (draw_pixel_bits var c >>> 0) &&& 0xff = c.b := by
  have h := draw_pixel_bits_fields var c hr hg hb
    (by rw [hred]; decide) (by rw [hgreen]; decide) (by rw [hblue]; decide)
    (by rw [htransp]; decide)
    (by rw [hred, hgreen]; decide) (by rw [hred, hblue]; decide)
    (by rw [hgreen, hblue]; decide) (by rw [hred, htransp]; decide)
    (by rw [hgreen, htransp]; decide) (by rw [hblue, htransp]; decide)
  rw [hred, hgreen, hblue] at h
  exact h

/-- C5, as stated, fails: the format `var_transp_outside` has red, green and
blue channels of 8 bits inside the 32-bit word that overlap neither each
other nor the transparency field (8 bits at offset 32); yet for the colour
(0x12, 0x34, 0x56) the word
`draw_pixel` packs reads back 0xFF in the blue channel, not 0x56, because the
transparency mask, shifted by 32, lands on bits 0 to 7. -/
theorem draw_pixel_bits_transp_counterexample :
    channel_ok var_transp_outside.red ∧ channel_ok var_transp_outside.green ∧
    channel_ok var_transp_outside.blue ∧
    bitfield_disjoint var_transp_outside.red var_transp_outside.green ∧
    bitfield_disjoint var_transp_outside.red var_transp_outside.blue ∧
    bitfield_disjoint var_transp_outside.green var_transp_outside.blue ∧
    bitfield_disjoint var_transp_outside.red var_transp_outside.transp ∧
    bitfield_disjoint var_transp_outside.green var_transp_outside.transp ∧
    bitfield_disjoint var_transp_outside.blue var_transp_outside.transp ∧
    (draw_pixel_bits var_transp_outside ⟨0x12, 0x34, 0x56⟩ >>>
        var_transp_outside.blue.offset) &&& (2 ^ var_transp_outside.blue.length - 1) = 0xFF ∧
    0x56 >>> (8 - var_transp_outside.blue.length) = 0x56 ∧
    (draw_pixel_bits var_transp_outside ⟨0x12, 0x34, 0x56⟩ >>>
        var_transp_outside.blue.offset) &&& (2 ^ var_transp_outside.blue.length - 1) ≠
      0x56 >>> (8 - var_transp_outside.blue.length) := by
  decide

/-- C5, amended: round trip of the pixel codec.  For every colour in
`[0,255]^3` and every format whose red, green and blue channels are 1 to 8
bits wide, lie inside the 32-bit word and overlap neither each other nor the
transparency channel, and whose transparency channel, when present, also lies
inside the 32-bit word: the word `draw_pixel` packs, shifted right by the
offset of a channel and masked to its length, is the input value shifted right
by `8 - length`.  For the fixed format of the device (8/8/8, no transparency)
this recovers `r`, `g` and `b` exactly. -/
theorem draw_pixel_bits_roundtrip (var : fb_var_screeninfo) (c : rgb_t)
    (hr : c.r < 256) (hg : c.g < 256) (hb : c.b < 256)
    (hred : channel_ok var.red) (hgreen : channel_ok var.green) (hblue : channel_ok var.blue)
    (htransp : transp_ok var.transp)
    (hrg : bitfield_disjoint var.red var.green) (hrb : bitfield_disjoint var.red var.blue)
    (hgb : bitfield_disjoint var.green var.blue)
    (hrt : bitfield_disjoint var.red var.transp)
    (hgt : bitfield_disjoint var.green var.transp)
    (hbt : bitfield_disjoint var.blue var.transp) :
    ((draw_pixel_bits var c >>> var.red.offset) &&& (2 ^ var.red.length - 1) =
        c.r >>> (8 - var.red.length) ∧
      (draw_pixel_bits var c >>> var.green.offset) &&& (2 ^ var.green.length - 1) =
        c.g >>> (8 - var.green.length) ∧
      (draw_pixel_bits var c >>> var.blue.offset) &&& (2 ^ var.blue.length - 1) =
        c.b >>> (8 - var.blue.length)) ∧
    ((draw_pixel_bits dumfb_var c >>> 16) &&& (2 ^ 8 - 1) = c.r ∧
      (draw_pixel_bits dumfb_var c >>> 8) &&& (2 ^ 8 - 1) = c.g ∧
      (draw_pixel_bits dumfb_var c >>> 0) &&& (2 ^ 8 - 1) = c.b) :=
  ⟨draw_pixel_bits_fields var c hr hg hb hred hgreen hblue htransp hrg hrb hgb hrt hgt hbt,
    draw_pixel_bits_fixed dumfb_var c hr hg hb rfl rfl rfl rfl⟩

/-- Witness of the amended C5: the colour (0xff, 0x80, 0x0f) in the format
ARGB 1/5/5/5, whose transparency bit is bit 15. -/
theorem draw_pixel_bits_roundtrip_witness :
    channel_ok var_argb1555.red ∧ channel_ok var_argb1555.green ∧
    channel_ok var_argb1555.blue ∧ transp_ok var_argb1555.transp ∧
    bitfield_disjoint var_argb1555.red var_argb1555.green ∧
    bitfield_disjoint var_argb1555.red var_argb1555.blue ∧
    bitfield_disjoint var_argb1555.green var_argb1555.blue ∧
    bitfield_disjoint var_argb1555.red var_argb1555.transp ∧
    bitfield_disjoint var_argb1555.green var_argb1555.transp ∧
    bitfield_disjoint var_argb1555.blue var_argb1555.transp ∧
    ((draw_pixel_bits var_argb1555 ⟨0xff, 0x80, 0x0f⟩ >>> var_argb1555.red.offset) &&&
          (2 ^ var_argb1555.red.length - 1) = 0xff >>> (8 - var_argb1555.red.length) ∧
      (draw_pixel_bits var_argb1555 ⟨0xff, 0x80, 0x0f⟩ >>> var_argb1555.green.offset) &&&
          (2 ^ var_argb1555.green.length - 1) = 0x80 >>> (8 - var_argb1555.green.length) ∧
      (draw_pixel_bits var_argb1555 ⟨0xff, 0x80, 0x0f⟩ >>> var_argb1555.blue.offset) &&&
          (2 ^ var_argb1555.blue.length - 1) = 0x0f >>> (8 - var_argb1555.blue.length)) ∧
    ((draw_pixel_bits dumfb_var ⟨0xff, 0x80, 0x0f⟩ >>> 16) &&& (2 ^ 8 - 1) = 0xff ∧
      (draw_pixel_bits dumfb_var ⟨0xff, 0x80, 0x0f⟩ >>> 8) &&& (2 ^ 8 - 1) = 0x80 ∧
      (draw_pixel_bits dumfb_var ⟨0xff, 0x80, 0x0f⟩ >>> 0) &&& (2 ^ 8 - 1) = 0x0f) :=
  ⟨by decide, by decide, by decide, by decide, by decide, by decide, by decide, by decide,
    by decide, by decide,
    draw_pixel_bits_roundtrip var_argb1555 ⟨0xff, 0x80, 0x0f⟩ (by decide) (by decide)
      (by decide) (by decide) (by decide) (by decide) (by decide) (by decide) (by decide)
      (by decide) (by decide) (by decide) (by decide)⟩

/-! ## Theorems: `draw_pixel` -/

example : (draw_pixel 3 fb_4x2 1 1 ⟨1, 2, 3⟩).byte 15 = some 1 := by decide
example : (draw_pixel 3 fb_4x2 1 1 ⟨1, 2, 3⟩).byte 17 = some 3 := by decide
example : (draw_pixel 2 fb_4x2 1 1 ⟨1, 2, 3⟩).byte 15 = none := by decide
example : (draw_pixel 3 fb_65535 0 21846 ⟨255, 0, 0⟩).byte 65534 = some 255 := by decide
example : (21846 : Nat) * fb_65535.fix_info.line_length = 4295032830 := by decide

/-- The three iterations of the byte loop at 24 bits per pixel. -/
theorem draw_pixel_loop_24 (bits fuel p : Nat) (mem : Nat → Nat) (hfuel : 3 ≤ fuel) :
    draw_pixel_loop bits fuel 16 p mem =
      some (store_byte (store_byte (store_byte mem p ((bits >>> 16) &&& 0xff)) (p + 1)
        ((bits >>> 8) &&& 0xff)) (p + 2) ((bits >>> 0) &&& 0xff)) := by
  obtain ⟨f, rfl⟩ : ∃ f, fuel = f + 3 := ⟨fuel - 3, by omega⟩
  have h16 : (16 : Int) - 8 = 8 := by norm_num
  have h8 : (8 : Int) - 8 = 0 := by norm_num
  have h0 : ¬ (0 : Int) ≤ 0 - 8 := by norm_num
  have hlast : ∀ q m, draw_pixel_loop bits f (0 - 8) q m = some m := by
    intro q m
    cases f <;> simp [draw_pixel_loop]
  rw [draw_pixel_loop, if_pos (by norm_num), h16, draw_pixel_loop, if_pos (by norm_num), h8,
    draw_pixel_loop, if_pos (le_refl 0), hlast]
  rfl

theorem int_to_u32_ofNat (n : Nat) : int_to_u32 (n : Int) = n % 2 ^ 32 := by
  unfold int_to_u32
  have h : ((n : Int) % 2 ^ 32) = ((n % 2 ^ 32 : Nat) : Int) := by norm_cast
  rw [h, Int.toNat_ofNat]

/-- The byte offset `draw_pixel` computes when neither 32-bit product wraps. -/
theorem draw_pixel_offset (x y : Int) (line_length : Nat)
    (hx0 : 0 ≤ x) (hy0 : 0 ≤ y) (hxw : x * 24 < 2 ^ 32)
    (hyw : y * (line_length : Int) < 2 ^ 32) :
    u32 (int_to_u32 y * line_length) + u32 (int_to_u32 x * 24) / 8 =
      y.toNat * line_length + x.toNat * 3 := by
  obtain ⟨xn, rfl⟩ := Int.eq_ofNat_of_zero_le hx0
  obtain ⟨yn, rfl⟩ := Int.eq_ofNat_of_zero_le hy0
  have hxw2 : xn * 24 < 2 ^ 32 := by exact_mod_cast hxw
  have hyw2 : yn * line_length < 2 ^ 32 := by exact_mod_cast hyw
  rw [int_to_u32_ofNat, int_to_u32_ofNat, Int.toNat_ofNat, Int.toNat_ofNat]
  have hx32 : xn % 2 ^ 32 = xn := Nat.mod_eq_of_lt (by omega)
  rw [hx32]
  unfold u32
  rw [Nat.mod_eq_of_lt hxw2]
  rcases Nat.eq_zero_or_pos line_length with hl | hl
  · subst hl
    simp
    omega
  · have hle : yn ≤ yn * line_length := Nat.le_mul_of_pos_right _ hl
    rw [Nat.mod_eq_of_lt (show yn < 2 ^ 32 by omega), Nat.mod_eq_of_lt hyw2]
    omega

/-- Every pixel of a buffer that holds its rows is reached without a wrap:
for `0 <= x < xres`, `0 <= y < yres`, `xres` a `ushort`,
`3 * xres <= line_length` and `line_length * yres <= smem_len < 2 ^ 32`,
neither product wraps and the three bytes of the pixel lie in the buffer. -/
theorem pixel_in_buffer_no_wrap (x y : Int) (xres yres line_length smem_len : Nat)
    (hx0 : 0 ≤ x) (hx : x < xres) (hy0 : 0 ≤ y) (hy : y < yres)
    (hxres : is_ushort xres) (hrow : 3 * xres ≤ line_length)
    (hlen : line_length * yres ≤ smem_len) (hsmem : smem_len < 2 ^ 32) :
    x * 24 < 2 ^ 32 ∧ y * (line_length : Int) < 2 ^ 32 ∧
    y.toNat * line_length + x.toNat * 3 + 3 ≤ smem_len := by
  unfold is_ushort at hxres
  obtain ⟨xn, rfl⟩ := Int.eq_ofNat_of_zero_le hx0
  obtain ⟨yn, rfl⟩ := Int.eq_ofNat_of_zero_le hy0
  have hxn : xn < xres := by exact_mod_cast hx
  have hyn : yn < yres := by exact_mod_cast hy
  have hrows : (yn + 1) * line_length ≤ line_length * yres := by
    rw [Nat.mul_comm line_length]
    exact Nat.mul_le_mul_right _ hyn
  have hexp : (yn + 1) * line_length = yn * line_length + line_length := by ring
  have hyw : yn * line_length < 2 ^ 32 := by omega
  refine ⟨?_, by exact_mod_cast hyw, ?_⟩
  · norm_num at hxres ⊢
    omega
  · rw [Int.toNat_ofNat, Int.toNat_ofNat]
    omega

end Dumfb
